import Mathlib

/-!
Verification development for the go-lambda-builder repository.

The development embeds the Go sources shallowly:

* `hashSourceCode` (the Fingerprinter) is embedded over an explicit file-system
  model, with real SHA-256 and standard base64 over byte lists.
* the per-folder pipeline `data.run` is embedded as a pure function from an
  environment (the outcomes of the external compiler / store / signer /
  function-service calls) and an object-store state to a result, a final store
  and the trace of external calls made; Go's `defer` is modelled by appending
  the deferred cleanup at every return point of the deferred scope.
* the dispatcher (result collection, folder discovery, sharding) is embedded
  over explicit folder lists and an arrival order for the result channel.
-/

set_option autoImplicit false

namespace LambdaBuilder

/-!
Bytewise string comparison and sorting.  Go's `sort.Strings` and
`sort.Sort(sort.StringSlice(...))` order strings by bytewise lexicographic
comparison; file and folder names in this repository are ASCII, so
characterwise comparison over `String.data` coincides with Go's byte order.
-/

/-- Lexicographic comparison of char lists by code point, as Go compares
ASCII strings. -/
def lexLe : List Char → List Char → Bool
  | [], _ => true
  | _ :: _, [] => false
  | a :: as, b :: bs =>
    if a.toNat < b.toNat then true
    else if b.toNat < a.toNat then false
    else lexLe as bs

/-- Go's `<=` on strings, restricted to the ASCII names used here. -/
def strLe (s t : String) : Prop := lexLe s.data t.data = true

instance : DecidableRel strLe := fun s t => by unfold strLe; infer_instance

theorem uint32_toNat_inj {a b : UInt32} (h : a.toNat = b.toNat) : a = b := by
  cases a; cases b
  simp_all [UInt32.toNat]
  exact congrArg UInt32.mk (BitVec.eq_of_toNat_eq h)

theorem char_toNat_inj {a b : Char} (h : a.toNat = b.toNat) : a = b :=
  Char.ext (uint32_toNat_inj h)

theorem lexLe_total (a b : List Char) : lexLe a b = true ∨ lexLe b a = true := by
  induction a generalizing b with
  | nil => left; rfl
  | cons x xs ih =>
    cases b with
    | nil => right; rfl
    | cons y ys =>
      rcases Nat.lt_trichotomy x.toNat y.toNat with h | h | h
      · left; simp [lexLe, h]
      · rcases ih ys with h2 | h2
        · left; simp [lexLe, h, h2]
        · right; simp [lexLe, h.symm, h2]
      · right; simp [lexLe, h]

theorem lexLe_trans {a b c : List Char} (h1 : lexLe a b = true) (h2 : lexLe b c = true) :
    lexLe a c = true := by
  induction a generalizing b c with
  | nil => rfl
  | cons x xs ih =>
    cases b with
    | nil => simp [lexLe] at h1
    | cons y ys =>
      cases c with
      | nil => simp [lexLe] at h2
      | cons z zs =>
        simp only [lexLe] at h1 h2 ⊢
        by_cases hxy : x.toNat < y.toNat <;> by_cases hyx : y.toNat < x.toNat <;>
          by_cases hyz : y.toNat < z.toNat <;> by_cases hzy : z.toNat < y.toNat <;>
          by_cases hxz : x.toNat < z.toNat <;> by_cases hzx : z.toNat < x.toNat <;>
          simp_all <;> first | omega | exact ih h1 h2 | exact Or.inr (ih h1 h2)

theorem lexLe_antisymm {a b : List Char} (h1 : lexLe a b = true) (h2 : lexLe b a = true) :
    a = b := by
  induction a generalizing b with
  | nil =>
    cases b with
    | nil => rfl
    | cons y ys => simp [lexLe] at h2
  | cons x xs ih =>
    cases b with
    | nil => simp [lexLe] at h1
    | cons y ys =>
      simp only [lexLe] at h1 h2
      by_cases hxy : x.toNat < y.toNat <;> by_cases hyx : y.toNat < x.toNat <;> simp_all
      · omega
      · exact ⟨char_toNat_inj (by omega), ih h1 h2⟩

instance : IsTotal String strLe := ⟨fun s t => lexLe_total s.data t.data⟩

instance : IsTrans String strLe := ⟨fun _ _ _ h1 h2 => lexLe_trans h1 h2⟩

instance : IsAntisymm String strLe :=
  ⟨fun s t h1 h2 => by cases s; cases t; exact congrArg String.mk (lexLe_antisymm h1 h2)⟩

/-- Go's `sort.Strings`, as insertion sort by bytewise order.  The Go sort is
applied to lists that our embedding produces in a possibly different initial
order; `sortStrings_canon` shows the result only depends on the multiset. -/
def sortStrings (l : List String) : List String := List.insertionSort strLe l

theorem sortStrings_perm (l : List String) : (sortStrings l).Perm l :=
  List.perm_insertionSort strLe l

theorem sortStrings_canon {l l' : List String} (h : l.Perm l') :
    sortStrings l = sortStrings l' := by
  have hp : (sortStrings l).Perm (sortStrings l') :=
    (List.perm_insertionSort strLe l).trans (h.trans (List.perm_insertionSort strLe l').symm)
  have h1 := List.sorted_insertionSort strLe l
  have h2 := List.sorted_insertionSort strLe l'
  exact List.eq_of_perm_of_sorted hp h1 h2

/-!
SHA-256 and standard base64, modelling Go's `crypto/sha256` and
`encoding/base64.StdEncoding` as pure functions over byte lists (bytes are
`Nat` values below 256; words are `Nat` values below `2 ^ 32`, kept reduced
with explicit `% pow32`).  The Go code feeds file bytes into one incremental
accumulator (`h.Write` via `io.Copy`); the accumulator state is modelled as
the list of bytes written so far and the digest is taken at `h.Sum(nil)`.
-/

def pow32 : Nat := 4294967296

def mask32 : Nat := 4294967295

/-- Rotate a 32-bit word right by `n`. -/
def rotr32 (n x : Nat) : Nat := (x / 2 ^ n + x % 2 ^ n * 2 ^ (32 - n)) % pow32

def shr32 (n x : Nat) : Nat := x / 2 ^ n

def bsig0 (x : Nat) : Nat := rotr32 2 x ^^^ rotr32 13 x ^^^ rotr32 22 x

def bsig1 (x : Nat) : Nat := rotr32 6 x ^^^ rotr32 11 x ^^^ rotr32 25 x

def ssig0 (x : Nat) : Nat := rotr32 7 x ^^^ rotr32 18 x ^^^ shr32 3 x

def ssig1 (x : Nat) : Nat := rotr32 17 x ^^^ rotr32 19 x ^^^ shr32 10 x

/-- The 64 SHA-256 round constants. -/
def sha256K : List Nat :=
  [1116352408, 1899447441, 3049323471, 3921009573, 961987163, 1508970993, 2453635748,
   2870763221, 3624381080, 310598401, 607225278, 1426881987, 1925078388, 2162078206,
   2614888103, 3248222580, 3835390401, 4022224774, 264347078, 604807628, 770255983,
   1249150122, 1555081692, 1996064986, 2554220882, 2821834349, 2952996808, 3210313671,
   3336571891, 3584528711, 113926993, 338241895, 666307205, 773529912, 1294757372,
   1396182291, 1695183700, 1986661051, 2177026350, 2456956037, 2730485921, 2820302411,
   3259730800, 3345764771, 3516065817, 3600352804, 4094571909, 275423344, 430227734,
   506948616, 659060556, 883997877, 958139571, 1322822218, 1537002063, 1747873779,
   1955562222, 2024104815, 2227730452, 2361852424, 2428436474, 2756734187, 3204031479,
   3329325298]

/-- The SHA-256 initial hash value. -/
def sha256H0 : List Nat :=
  [1779033703, 3144134277, 1013904242, 2773480762, 1359893119, 2600822924, 528734635,
   1541459225]

/-- The eight working variables of the SHA-256 compression function. -/
structure Hash8 where
  a : Nat
  b : Nat
  c : Nat
  d : Nat
  e : Nat
  f : Nat
  g : Nat
  h : Nat

/-- One round of the SHA-256 compression function. -/
def compressRound (st : Hash8) (k w : Nat) : Hash8 :=
  let ch := (st.e &&& st.f) ^^^ ((st.e ^^^ mask32) &&& st.g)
  let maj := (st.a &&& st.b) ^^^ (st.a &&& st.c) ^^^ (st.b &&& st.c)
  let t1 := (st.h + bsig1 st.e + ch + k + w) % pow32
  let t2 := (bsig0 st.a + maj) % pow32
  ⟨(t1 + t2) % pow32, st.a, st.b, st.c, (st.d + t1) % pow32, st.e, st.f, st.g⟩

/-- Big-endian 4-byte words from a byte list. -/
def toWords : List Nat → List Nat
  | b0 :: b1 :: b2 :: b3 :: rest => (b0 * 16777216 + b1 * 65536 + b2 * 256 + b3) :: toWords rest
  | _ => []

/-- Extend the 16-word message schedule by the given number of words. -/
def extendSchedule : Nat → List Nat → List Nat
  | 0, w => w
  | k + 1, w =>
    let n := w.length
    let x := (ssig1 (w.getD (n - 2) 0) + w.getD (n - 7) 0 + ssig0 (w.getD (n - 15) 0) +
      w.getD (n - 16) 0) % pow32
    extendSchedule k (w ++ [x])

/-- Compress one 64-byte block into the running 8-word hash state. -/
def compressBlock (hs block : List Nat) : List Nat :=
  let w := extendSchedule 48 (toWords block)
  let st0 : Hash8 := ⟨hs.getD 0 0, hs.getD 1 0, hs.getD 2 0, hs.getD 3 0, hs.getD 4 0,
    hs.getD 5 0, hs.getD 6 0, hs.getD 7 0⟩
  let st := (List.zip sha256K w).foldl (fun s p => compressRound s p.1 p.2) st0
  [(hs.getD 0 0 + st.a) % pow32, (hs.getD 1 0 + st.b) % pow32, (hs.getD 2 0 + st.c) % pow32,
   (hs.getD 3 0 + st.d) % pow32, (hs.getD 4 0 + st.e) % pow32, (hs.getD 5 0 + st.f) % pow32,
   (hs.getD 6 0 + st.g) % pow32, (hs.getD 7 0 + st.h) % pow32]

/-- The `k` big-endian bytes of `v`. -/
def beBytes : Nat → Nat → List Nat
  | 0, _ => []
  | k + 1, v => beBytes k (v / 256) ++ [v % 256]

/-- SHA-256 padding: a `0x80` byte, zeros up to 56 mod 64, and the bit length
as eight big-endian bytes. -/
def padMessage (msg : List Nat) : List Nat :=
  let len := msg.length
  msg ++ [128] ++ List.replicate ((120 - (len + 1) % 64) % 64) 0 ++ beBytes 8 (len * 8)

/-- Split a padded message into 64-byte blocks. -/
def toBlocks (l : List Nat) : List (List Nat) :=
  if h : l = [] then [] else l.take 64 :: toBlocks (l.drop 64)
termination_by l.length
decreasing_by
  simp only [List.length_drop]
  have : 0 < l.length := List.length_pos.mpr h
  omega

/-- SHA-256 digest (32 bytes) of a byte list. -/
def sha256 (msg : List Nat) : List Nat :=
  let hs := (toBlocks (padMessage msg)).foldl compressBlock sha256H0
  hs.foldr (fun w acc => beBytes 4 w ++ acc) []

def b64Chars : List Char :=
  "ABCDEFGHIJKLMNOPQRSTUVWXYZabcdefghijklmnopqrstuvwxyz0123456789+/".data

def b64Char (i : Nat) : Char := b64Chars.getD i 'A'

/-- Standard base64: encode three bytes as four alphabet characters, with
`=` padding for a final partial group. -/
def b64Groups : List Nat → List Char
  | [] => []
  | [b0] => [b64Char (b0 / 4), b64Char (b0 % 4 * 16), '=', '=']
  | [b0, b1] => [b64Char (b0 / 4), b64Char (b0 % 4 * 16 + b1 / 16), b64Char (b1 % 16 * 4), '=']
  | b0 :: b1 :: b2 :: rest =>
    b64Char (b0 / 4) :: b64Char (b0 % 4 * 16 + b1 / 16) :: b64Char (b1 % 16 * 4 + b2 / 64) ::
      b64Char (b2 % 64) :: b64Groups rest

/-- Go's `base64.StdEncoding.EncodeToString`. -/
def base64Encode (bytes : List Nat) : String := String.mk (b64Groups bytes)

/-!
Fingerprinter: embedding of `data.hashSourceCode` (src/unnamed/part_000,
lines 134-174) over an explicit file-system model.
-/

abbrev Err := String

deriving instance DecidableEq for Except

/-- A source file as the fingerprinter sees it: its path, and the outcome of
opening and reading it (`Except.error` when `os.Open` or the `io.Copy` into
the hash fails for that file). -/
structure SrcFile where
  name : String
  content : Except Err (List Nat)

abbrev FileSys := List SrcFile

def noSlash (l : List Char) : Bool := !l.contains '/'

/-- Whether `n` matches the glob pattern `folder ++ "/go.*"`.  In
`path/filepath` semantics `*` matches any possibly-empty run of
non-separator characters; folder names in this repository contain no glob
metacharacters, so the folder part is matched literally. -/
def matchesGoDot (folder : String) (n : String) : Bool :=
  let p := folder.data ++ ['/', 'g', 'o', '.']
  p.isPrefixOf n.data && noSlash (n.data.drop p.length)

/-- Whether `n` matches the glob pattern `folder ++ "/*.go"`: a single
non-separator base name ending in `.go` under `folder`. -/
def matchesStarGo (folder : String) (n : String) : Bool :=
  let p := folder.data ++ ['/']
  let base := n.data.drop p.length
  p.isPrefixOf n.data && (noSlash base && ['.', 'g', 'o'].isSuffixOf base)

/-- Go's `filepath.Glob` over the modelled file system: the names present in
the listing that match the pattern.  `filepath.Glob` returns its matches
sorted, but `data.hashSourceCode` re-sorts the combined list and
`sortStrings` is canonical on multisets (`sortStrings_canon`), so the
embedding filters in listing order and sorts once. -/
def globNames (fs : FileSys) (p : String → Bool) : List String :=
  (fs.map (fun f => f.name)).filter p

/-- The combined, lexicographically sorted list of matched file names
(lines 137-150): matches of `folder/go.*`, then matches of `folder/*.go`,
then `sort.Strings` on the combined list. -/
def matchedFiles (fs : FileSys) (folder : String) : List String :=
  sortStrings (globNames fs (matchesGoDot folder) ++ globNames fs (matchesStarGo folder))

/-- Opening and reading a file of the modelled file system. -/
def readFile (fs : FileSys) (n : String) : Except Err (List Nat) :=
  match fs.find? (fun f => f.name == n) with
  | none => Except.error "open failed"
  | some f => f.content

/-- The hashing loop of `data.hashSourceCode` (lines 158-170): feed each
file's bytes into the accumulator in order, aborting with the first file
whose open or read fails.  The accumulator is the byte stream fed so far. -/
def hashFiles (fs : FileSys) : List String → List Nat → Except Err (List Nat)
  | [], acc => Except.ok acc
  | n :: rest, acc =>
    match readFile fs n with
    | Except.error e => Except.error e
    | Except.ok bytes => hashFiles fs rest (acc ++ bytes)

/-- Embedding of `data.hashSourceCode`: glob the two patterns, sort the
combined name list, stream every file through one SHA-256 accumulator in
that order, and render the digest in standard base64. -/
def hashSourceCode (fs : FileSys) (folder : String) : Except Err String :=
  match hashFiles fs (matchedFiles fs folder) [] with
  | Except.error e => Except.error e
  | Except.ok stream => Except.ok (base64Encode (sha256 stream))

/-- Reading all the named files in order, collecting their concatenated
bytes; specification-side companion of `hashFiles`. -/
def readAll (fs : FileSys) : List String → Except Err (List Nat)
  | [] => Except.ok []
  | n :: rest =>
    match readFile fs n with
    | Except.error e => Except.error e
    | Except.ok bytes =>
      match readAll fs rest with
      | Except.error e => Except.error e
      | Except.ok tail => Except.ok (bytes ++ tail)

/-- The first open/read error among the named files, in order. -/
def firstReadError (fs : FileSys) : List String → Option Err
  | [] => none
  | n :: rest =>
    match readFile fs n with
    | Except.error e => some e
    | Except.ok _ => firstReadError fs rest

/-- Concrete file system for the determinism witness: the folder `f` with
one matched source file and one unmatched extra file. -/
def fsW1 : FileSys :=
  [⟨"f/main.go", Except.ok [1, 2]⟩, ⟨"f/readme.txt", Except.ok [3]⟩]

/-- Same matched file contents as `fsW1`, different unmatched file. -/
def fsW2 : FileSys :=
  [⟨"f/main.go", Except.ok [1, 2]⟩, ⟨"f/other.txt", Except.ok [4, 5]⟩]

/-- Concrete file system for the abort-on-error witness: reading
`g/main.go` fails. -/
def fsW3 : FileSys :=
  [⟨"g/main.go", Except.error "boom"⟩, ⟨"g/go.mod", Except.ok [1]⟩]

theorem hashFiles_eq (fs : FileSys) (names : List String) (acc : List Nat) :
    hashFiles fs names acc = match readAll fs names with
      | Except.error e => Except.error e
      | Except.ok s => Except.ok (acc ++ s) := by
  induction names generalizing acc with
  | nil => simp [hashFiles, readAll]
  | cons n rest ih =>
    simp only [hashFiles, readAll]
    cases readFile fs n with
    | error e => rfl
    | ok bytes =>
      dsimp only
      rw [ih]
      cases readAll fs rest with
      | error e => rfl
      | ok tail => simp

theorem readAll_congr {fs1 fs2 : FileSys} {names : List String}
    (h : ∀ n ∈ names, readFile fs1 n = readFile fs2 n) :
    readAll fs1 names = readAll fs2 names := by
  induction names with
  | nil => rfl
  | cons n rest ih =>
    simp only [readAll]
    rw [h n (List.mem_cons_self n rest), ih (fun m hm => h m (List.mem_cons_of_mem n hm))]

theorem readAll_error_iff (fs : FileSys) (names : List String) (e : Err) :
    readAll fs names = Except.error e ↔ firstReadError fs names = some e := by
  induction names with
  | nil => simp [readAll, firstReadError]
  | cons n rest ih =>
    simp only [readAll, firstReadError]
    cases readFile fs n with
    | error e2 => simp
    | ok bytes =>
      simp only
      cases h : readAll fs rest with
      | error e2 => simpa [h] using ih
      | ok tail => simpa [h] using ih

theorem readAll_ok_read {fs : FileSys} {names : List String} {s : List Nat}
    (h : readAll fs names = Except.ok s) :
    ∀ n ∈ names, ∃ b, readFile fs n = Except.ok b := by
  induction names generalizing s with
  | nil => simp
  | cons n rest ih =>
    intro m hm
    simp only [readAll] at h
    cases hr : readFile fs n with
    | error e => rw [hr] at h; exact absurd h (by simp)
    | ok bytes =>
      rw [hr] at h
      cases ha : readAll fs rest with
      | error e => rw [ha] at h; exact absurd h (by simp)
      | ok tail =>
        rcases List.mem_cons.mp hm with rfl | hm2
        · exact ⟨bytes, hr⟩
        · exact ih ha m hm2

/-- C3: `hashSourceCode` is deterministic.  It matches files by the two glob
patterns `folder/go.*` and `folder/*.go`, sorts the combined name list
lexicographically, feeds each file's bytes into one SHA-256 accumulator in
that order and returns the base64 rendering of the digest; hence two
invocations over files with identical names and identical contents return
exactly equal fingerprint strings. -/
theorem hashSourceCode_deterministic (fs1 fs2 : FileSys) (folder : String)
    (hnames : matchedFiles fs1 folder = matchedFiles fs2 folder)
    (hread : ∀ n ∈ matchedFiles fs1 folder, readFile fs1 n = readFile fs2 n) :
    hashSourceCode fs1 folder = hashSourceCode fs2 folder ∧
      ∀ h, hashSourceCode fs1 folder = Except.ok h →
        ∃ s, readAll fs1 (matchedFiles fs1 folder) = Except.ok s ∧
          h = base64Encode (sha256 s) := by
  have hra : readAll fs1 (matchedFiles fs1 folder) = readAll fs2 (matchedFiles fs2 folder) := by
    rw [← hnames]; exact readAll_congr hread
  constructor
  · simp only [hashSourceCode, hashFiles_eq, hra]
  · intro h hok
    simp only [hashSourceCode, hashFiles_eq] at hok
    cases ha : readAll fs1 (matchedFiles fs1 folder) with
    | error e => rw [ha] at hok; exact absurd hok (by simp)
    | ok s =>
      rw [ha] at hok
      simp only [List.nil_append] at hok
      exact ⟨s, rfl, (by simpa using hok.symm)⟩

/-- Witness for C3 at a concrete input: two file systems whose matched
files agree (they differ in a file neither pattern matches) get the same
fingerprint. -/
theorem hashSourceCode_deterministic_witness :
    hashSourceCode fsW1 "f" = hashSourceCode fsW2 "f" :=
  (hashSourceCode_deterministic fsW1 fsW2 "f" (by decide) (by decide)).1

/-- C7: if opening or reading a matched file fails, `hashSourceCode` returns
an error and no fingerprint; the error returned is that of the first failing
file in sorted order (the remaining files are not hashed), and a returned
fingerprint is always the digest of the full matched stream, never of a
strict subset. -/
theorem hashSourceCode_abort_on_error (fs : FileSys) (folder : String) :
    (∀ n e, n ∈ matchedFiles fs folder → readFile fs n = Except.error e →
      ∃ e2, hashSourceCode fs folder = Except.error e2) ∧
    (∀ e, hashSourceCode fs folder = Except.error e →
      firstReadError fs (matchedFiles fs folder) = some e) ∧
    (∀ h, hashSourceCode fs folder = Except.ok h →
      (∀ n ∈ matchedFiles fs folder, ∃ b, readFile fs n = Except.ok b) ∧
      ∃ s, readAll fs (matchedFiles fs folder) = Except.ok s ∧
        h = base64Encode (sha256 s)) := by
  refine ⟨?_, ?_, ?_⟩
  · intro n e hn hr
    cases ha : readAll fs (matchedFiles fs folder) with
    | error e2 => exact ⟨e2, by simp [hashSourceCode, hashFiles_eq, ha]⟩
    | ok s =>
      rcases readAll_ok_read ha n hn with ⟨b, hb⟩
      rw [hr] at hb
      exact absurd hb (by simp)
  · intro e he
    simp only [hashSourceCode, hashFiles_eq] at he
    cases ha : readAll fs (matchedFiles fs folder) with
    | error e2 =>
      rw [ha] at he
      simp only at he
      cases he
      exact (readAll_error_iff fs (matchedFiles fs folder) e).mp ha
    | ok s => rw [ha] at he; exact absurd he (by simp)
  · intro h hok
    simp only [hashSourceCode, hashFiles_eq] at hok
    cases ha : readAll fs (matchedFiles fs folder) with
    | error e2 => rw [ha] at hok; exact absurd hok (by simp)
    | ok s =>
      rw [ha] at hok
      simp only [List.nil_append] at hok
      exact ⟨readAll_ok_read ha, s, rfl, by simpa using hok.symm⟩

/-- Witness for C7 at a concrete input: with `g/main.go` unreadable the
fingerprinter reports exactly that file's error, which is the first failing
file in sorted order. -/
theorem hashSourceCode_abort_on_error_witness :
    firstReadError fsW3 (matchedFiles fsW3 "g") = some "boom" :=
  (hashSourceCode_abort_on_error fsW3 "g").2.1 "boom" (by decide)

/-!
Per-folder pipeline: embedding of `data.run` (src/unnamed/part_000,
lines 49-131) and `data.isUpToDate` (lines 261-297).

The external object store is modelled explicitly because the pipeline later
reads back (via `HeadObject`) metadata that it wrote earlier (via
`CopyObject`).  Amazon S3 stores user-defined metadata keys lowercased and
the Go SDK returns them lowercased from `HeadObject`; the model applies that
documented normalisation at the write (`normalizeMeta`).  The code writes
the key `"unsignedHash"` and reads `"unsignedhash"`, which agree through
this normalisation.

All other collaborator calls (compiler, zip, signer, lambda) are oracles in
`Env`; `Env.hashSourceCode` is the fingerprint result, the pipeline-level
abstraction of the `hashSourceCode` function modelled above.  Go's `defer`
is modelled by splitting `run` at each `defer` registration: the code after
a registration is its own function, and the deferred cleanup is appended to
that function's store effect and trace at every one of its return points
(deferred calls run in LIFO order at function return, and their own errors
are discarded, exactly as `defer` does for `d.deleteFile`/`d.deleteObject`).
-/

abbrev Metadata := List (String × String)

/-- A stored object as the freshness check sees it: its user metadata map.
`none` models an object whose `HeadObject` output carries no metadata map. -/
structure StoredObject where
  metadata : Option Metadata
deriving DecidableEq

abbrev Store := List (String × StoredObject)

def storeGet (st : Store) (key : String) : Option StoredObject :=
  match st.find? (fun p => p.1 == key) with
  | none => none
  | some p => some p.2

def storePut (st : Store) (key : String) (obj : StoredObject) : Store :=
  (key, obj) :: st

def storeDelete (st : Store) (key : String) : Store :=
  st.filter (fun p => !(p.1 == key))

/-- Lowercase a string; S3 stores and returns user metadata keys
lowercased. -/
def lowerStr (s : String) : String := String.mk (s.data.map Char.toLower)

def normalizeMeta (m : Metadata) : Metadata := m.map (fun p => (lowerStr p.1, p.2))

/-- Go's map lookup `output.Metadata["unsignedhash"]`. -/
def lookupMeta (md : Metadata) (k : String) : Option String :=
  match md.find? (fun p => p.1 == k) with
  | none => none
  | some p => some p.2

/-- Outcomes of the external calls one pipeline run makes.  `headFail k`
injects a spurious store error into `HeadObject` on key `k`;
`deleteObjectFail k` makes the cleanup `DeleteObject` on `k` fail (its error
is discarded by `defer`). -/
structure Env where
  hashSourceCode : Except Err String
  headFail : String → Bool
  buildExecutable : Except Err Unit
  zipExecutable : Except Err Unit
  sizeExecutable : Except Err Unit
  putObject : Except Err String
  deleteObjectFail : String → Bool
  startSigningJob : Except Err String
  waitForSigningJob : Except Err Unit
  getObject : Except Err Unit
  hashObject : Except Err String
  copyObject : Except Err Unit
  updateFunctionCode : Except Err Unit
  waitForFunctionUpdate : Except Err Unit
  publishLambdaVersion : Except Err String
  updateFunctionAlias : Except Err Unit

/-- The external calls of one pipeline run, in program order. -/
inductive Event where
  | hashSource
  | headObject (key : String)
  | build
  | zip
  | size
  | put (key : String)
  | startSign
  | waitSign
  | getObj (key : String)
  | hashObj
  | copy (dst : String)
  | updateCode
  | waitUpdate
  | publishVersion
  | updateAlias
  | deleteObj (key : String)
  | deleteFile (path : String)
deriving DecidableEq

/-- Store-write calls: `PutObject`, `CopyObject`, `DeleteObject`. -/
def Event.isStoreWrite : Event → Bool
  | Event.put _ => true
  | Event.copy _ => true
  | Event.deleteObj _ => true
  | _ => false

/-- Function-update calls (part_000 lines 115-130). -/
def Event.isFnCall : Event → Bool
  | Event.updateCode => true
  | Event.waitUpdate => true
  | Event.publishVersion => true
  | Event.updateAlias => true
  | _ => false

/-- The configuration `data` carries (flags and prefixes); the source fields
are named `unsignedPrefix`, `stagingPrefix`, `signedPrefix`. -/
structure Config where
  unsignedPref : String
  stagingPref : String
  signedPref : String
  noUpdateFunctions : Bool
  force : Bool

/-- Line 50: `executablePath := fmt.Sprintf("/tmp/%s", folder)`. -/
def executablePath (folder : String) : String := "/tmp/" ++ folder

/-- Line 51: the unsigned key `{unsignedPrefix}/{folder}.zip`. -/
def unsignedKey (cfg : Config) (folder : String) : String :=
  cfg.unsignedPref ++ "/" ++ folder ++ ".zip"

/-- Line 52: the signed key `{signedPrefix}/{folder}.zip`. -/
def signedKey (cfg : Config) (folder : String) : String :=
  cfg.signedPref ++ "/" ++ folder ++ ".zip"

/-- Line 89: the staging key `{stagingPrefix}/{jobId}.zip`. -/
def stagingKey (cfg : Config) (jobId : String) : String :=
  cfg.stagingPref ++ "/" ++ jobId ++ ".zip"

/-- Result of one pipeline run: the Go error return (`none` is `nil`), the
final store, and the trace of external calls made. -/
structure RunOut where
  result : Option Err
  store : Store
  trace : List Event

/-- `HeadObject` on a key: errors when the object is missing or when the
store reports a spurious failure; otherwise yields the metadata map. -/
def headObject (env : Env) (st : Store) (key : String) : Option (Option Metadata) :=
  if env.headFail key then none
  else
    match storeGet st key with
    | none => none
    | some obj => some obj.metadata

/-- Embedding of `data.isUpToDate` (lines 261-297), returning the Go
`(bool, error)` pair. -/
def isUpToDate (env : Env) (st : Store) (signedK unsignedHash : String) : Bool × Option Err :=
  match headObject env st signedK with
  | none => (false, none)
  | some none => (false, none)
  | some (some md) =>
    match lookupMeta md "unsignedhash" with
    | none => (false, none)
    | some previous => if unsignedHash ≠ previous then (false, none) else (true, none)

/-- The deferred `d.deleteObject` cleanup on `key`: removes the key unless
that delete itself fails; its error is logged and discarded. -/
def runDelete (env : Env) (st : Store) (key : String) : Store :=
  if env.deleteObjectFail key then st else storeDelete st key

/-- The function-update calls (lines 112-131) performed in order: each call
is attempted only after all previous ones succeeded. -/
def fnCalls (env : Env) : List Event :=
  match env.updateFunctionCode with
  | Except.error _ => [Event.updateCode]
  | Except.ok _ =>
    match env.waitForFunctionUpdate with
    | Except.error _ => [Event.updateCode, Event.waitUpdate]
    | Except.ok _ =>
      match env.publishLambdaVersion with
      | Except.error _ => [Event.updateCode, Event.waitUpdate, Event.publishVersion]
      | Except.ok _ =>
        [Event.updateCode, Event.waitUpdate, Event.publishVersion, Event.updateAlias]

/-- The error result of the function-update segment (lines 112-131). -/
def fnResult (env : Env) : Option Err :=
  match env.updateFunctionCode with
  | Except.error e => some e
  | Except.ok _ =>
    match env.waitForFunctionUpdate with
    | Except.error e => some e
    | Except.ok _ =>
      match env.publishLambdaVersion with
      | Except.error e => some e
      | Except.ok _ =>
        match env.updateFunctionAlias with
        | Except.error e => some e
        | Except.ok _ => none

/-- Lines 95-131, the scope after `defer d.deleteObject(folder, stagingKey)`
is registered: download from staging, hash, copy to the signed key with
replaced metadata, then the optional function updates.  (`signedR.Close()`
is also deferred in the source; it has no store effect and no event.) -/
def runFromGet (cfg : Config) (env : Env) (st : Store) (stagingK signedK unsignedHash : String) :
    RunOut :=
  match env.getObject with
  | Except.error e => ⟨some e, st, [Event.getObj stagingK]⟩
  | Except.ok _ =>
    match env.hashObject with
    | Except.error e => ⟨some e, st, [Event.getObj stagingK, Event.hashObj]⟩
    | Except.ok signedHash =>
      match env.copyObject with
      | Except.error e =>
        ⟨some e, st, [Event.getObj stagingK, Event.hashObj, Event.copy signedK]⟩
      | Except.ok _ =>
        let st2 := storePut st signedK ⟨some (normalizeMeta
          [("unsignedHash", unsignedHash), ("signedHash", signedHash),
           ("source-code-hash", signedHash)])⟩
        let tr := [Event.getObj stagingK, Event.hashObj, Event.copy signedK]
        if cfg.noUpdateFunctions then ⟨none, st2, tr⟩
        else ⟨fnResult env, st2, tr ++ fnCalls env⟩

/-- Lines 85-131: start the signing job, wait for it, then the rest; after
the wait succeeds, `defer` registers the staging-object delete, which runs
at every later return point. -/
def runFromSign (cfg : Config) (env : Env) (st : Store) (signedK unsignedHash : String) :
    RunOut :=
  match env.startSigningJob with
  | Except.error e => ⟨some e, st, [Event.startSign]⟩
  | Except.ok jobId =>
    match env.waitForSigningJob with
    | Except.error e => ⟨some e, st, [Event.startSign, Event.waitSign]⟩
    | Except.ok _ =>
      let r := runFromGet cfg env st (stagingKey cfg jobId) signedK unsignedHash
      ⟨r.result, runDelete env r.store (stagingKey cfg jobId),
        [Event.startSign, Event.waitSign] ++ r.trace ++ [Event.deleteObj (stagingKey cfg jobId)]⟩

/-- Lines 72-131: zip, size, upload the unsigned package, then the rest;
after the upload succeeds, `defer` registers the unsigned-object delete. -/
def runFromZip (cfg : Config) (env : Env) (st : Store) (unsignedK signedK unsignedHash : String) :
    RunOut :=
  match env.zipExecutable with
  | Except.error e => ⟨some e, st, [Event.zip]⟩
  | Except.ok _ =>
    match env.sizeExecutable with
    | Except.error e => ⟨some e, st, [Event.zip, Event.size]⟩
    | Except.ok _ =>
      match env.putObject with
      | Except.error e => ⟨some e, st, [Event.zip, Event.size, Event.put unsignedK]⟩
      | Except.ok _ =>
        let r := runFromSign cfg env (storePut st unsignedK ⟨none⟩) signedK unsignedHash
        ⟨r.result, runDelete env r.store unsignedK,
          [Event.zip, Event.size, Event.put unsignedK] ++ r.trace ++ [Event.deleteObj unsignedK]⟩

/-- Lines 67-131: build the executable, then the rest; after the build
succeeds, `defer` registers the local-file delete, which is the outermost
deferred cleanup and therefore the last to run. -/
def runFromBuild (cfg : Config) (env : Env) (st : Store) (folder unsignedHash : String) :
    RunOut :=
  match env.buildExecutable with
  | Except.error e => ⟨some e, st, [Event.build]⟩
  | Except.ok _ =>
    let r := runFromZip cfg env st (unsignedKey cfg folder) (signedKey cfg folder) unsignedHash
    ⟨r.result, r.store, Event.build :: r.trace ++ [Event.deleteFile (executablePath folder)]⟩

/-- Embedding of `data.run` (lines 49-131): fingerprint, optional freshness
check with early exit, then the deploy stages. -/
def run (cfg : Config) (env : Env) (st : Store) (folder : String) : RunOut :=
  match env.hashSourceCode with
  | Except.error e => ⟨some e, st, [Event.hashSource]⟩
  | Except.ok unsignedHash =>
    if cfg.force then
      let r := runFromBuild cfg env st folder unsignedHash
      ⟨r.result, r.store, Event.hashSource :: r.trace⟩
    else
      match (isUpToDate env st (signedKey cfg folder) unsignedHash).2 with
      | some e => ⟨some e, st, [Event.hashSource, Event.headObject (signedKey cfg folder)]⟩
      | none =>
        if (isUpToDate env st (signedKey cfg folder) unsignedHash).1 then
          ⟨none, st, [Event.hashSource, Event.headObject (signedKey cfg folder)]⟩
        else
          let r := runFromBuild cfg env st folder unsignedHash
          ⟨r.result, r.store,
            Event.hashSource :: Event.headObject (signedKey cfg folder) :: r.trace⟩

/-- Every environment-controlled external call succeeds: the shape of a run
that completes every stage it attempts. -/
def Env.AllOk (env : Env) : Prop :=
  env.buildExecutable = Except.ok () ∧ env.zipExecutable = Except.ok () ∧
  env.sizeExecutable = Except.ok () ∧ (∃ v, env.putObject = Except.ok v) ∧
  (∃ j, env.startSigningJob = Except.ok j) ∧ env.waitForSigningJob = Except.ok () ∧
  env.getObject = Except.ok () ∧ (∃ s, env.hashObject = Except.ok s) ∧
  env.copyObject = Except.ok () ∧ env.updateFunctionCode = Except.ok () ∧
  env.waitForFunctionUpdate = Except.ok () ∧ (∃ v, env.publishLambdaVersion = Except.ok v) ∧
  env.updateFunctionAlias = Except.ok ()

/-- Concrete all-success environment for witnesses. -/
def envW : Env :=
  { hashSourceCode := Except.ok "H1"
    headFail := fun _ => false
    buildExecutable := Except.ok ()
    zipExecutable := Except.ok ()
    sizeExecutable := Except.ok ()
    putObject := Except.ok "v1"
    deleteObjectFail := fun _ => false
    startSigningJob := Except.ok "job1"
    waitForSigningJob := Except.ok ()
    getObject := Except.ok ()
    hashObject := Except.ok "S1"
    copyObject := Except.ok ()
    updateFunctionCode := Except.ok ()
    waitForFunctionUpdate := Except.ok ()
    publishLambdaVersion := Except.ok "7"
    updateFunctionAlias := Except.ok () }

/-- Concrete configuration for witnesses. -/
def cfgW : Config :=
  { unsignedPref := "u", stagingPref := "t", signedPref := "s",
    noUpdateFunctions := false, force := false }

/-- Environment whose wait-for-function-update call fails. -/
def envW6 : Env := { envW with waitForFunctionUpdate := Except.error "w" }

theorem storeGet_put_self (st : Store) (k : String) (o : StoredObject) :
    storeGet (storePut st k o) k = some o := by
  simp [storeGet, storePut, List.find?]

theorem storeGet_put_ne {k k2 : String} (h : k2 ≠ k) (st : Store) (o : StoredObject) :
    storeGet (storePut st k o) k2 = storeGet st k2 := by
  have : (k == k2) = false := by simp [Ne.symm h]
  simp [storeGet, storePut, List.find?, this]

theorem find_filter_not_key {k k2 : String} (h : k2 ≠ k) (st : Store) :
    List.find? (fun p => p.1 == k2) (List.filter (fun p => !(p.1 == k)) st) =
      List.find? (fun p => p.1 == k2) st := by
  induction st with
  | nil => rfl
  | cons p rest ih =>
    by_cases hk : p.1 = k
    · have h3 : ¬ k = k2 := fun hh => h hh.symm
      simp [List.filter_cons, List.find?_cons, hk, h3, ih]
    · by_cases h2 : p.1 = k2
      · simp [List.filter_cons, List.find?_cons, hk, h2, h]
      · simp [List.filter_cons, List.find?_cons, hk, h2, ih]

theorem storeGet_delete_ne {k k2 : String} (h : k2 ≠ k) (st : Store) :
    storeGet (storeDelete st k) k2 = storeGet st k2 := by
  unfold storeGet storeDelete
  rw [find_filter_not_key h st]

theorem storeGet_runDelete_ne {k k2 : String} (h : k2 ≠ k) (env : Env) (st : Store) :
    storeGet (runDelete env st k) k2 = storeGet st k2 := by
  unfold runDelete
  by_cases hd : env.deleteObjectFail k = true
  · simp [hd]
  · simp only [Bool.not_eq_true] at hd
    simp [hd, storeGet_delete_ne h]

theorem isUpToDate_err (env : Env) (st : Store) (k fp : String) :
    (isUpToDate env st k fp).2 = none := by
  unfold isUpToDate
  cases headObject env st k with
  | none => rfl
  | some mo =>
    cases mo with
    | none => rfl
    | some md =>
      dsimp only
      cases lookupMeta md "unsignedhash" with
      | none => rfl
      | some prev =>
        dsimp only
        split <;> rfl

theorem isUpToDate_true_iff (env : Env) (st : Store) (k fp : String) :
    (isUpToDate env st k fp).1 = true ↔
      ∃ md, headObject env st k = some (some md) ∧ lookupMeta md "unsignedhash" = some fp := by
  unfold isUpToDate
  cases h1 : headObject env st k with
  | none => simp
  | some mo =>
    cases mo with
    | none => simp
    | some md =>
      dsimp only
      cases h2 : lookupMeta md "unsignedhash" with
      | none => simp [h2]
      | some prev =>
        dsimp only
        by_cases hfp : fp = prev
        · subst hfp; simp [h2]
        · simp [hfp, h2]
          intro hh; exact absurd hh.symm hfp

/-- C2: `isUpToDate` never returns an error to its caller: the error
component is always `nil`.  It returns `false` when the head lookup fails
(object missing or spurious store error), when the object has no metadata
map, when the metadata lacks the `unsignedhash` field, and when the stored
fingerprint differs; it returns `true` exactly when the stored fingerprint
equals the given one. -/
theorem isUpToDate_never_errors (env : Env) (st : Store) (k fp : String) :
    (isUpToDate env st k fp).2 = none ∧
    (headObject env st k = none → (isUpToDate env st k fp).1 = false) ∧
    (headObject env st k = some none → (isUpToDate env st k fp).1 = false) ∧
    (∀ md, headObject env st k = some (some md) → lookupMeta md "unsignedhash" = none →
      (isUpToDate env st k fp).1 = false) ∧
    (∀ md prev, headObject env st k = some (some md) →
      lookupMeta md "unsignedhash" = some prev → prev ≠ fp →
      (isUpToDate env st k fp).1 = false) ∧
    ((isUpToDate env st k fp).1 = true ↔
      ∃ md, headObject env st k = some (some md) ∧
        lookupMeta md "unsignedhash" = some fp) := by
  refine ⟨isUpToDate_err env st k fp, ?_, ?_, ?_, ?_, isUpToDate_true_iff env st k fp⟩
  · intro h; unfold isUpToDate; rw [h]
  · intro h; unfold isUpToDate; rw [h]
  · intro md h hl
    unfold isUpToDate
    rw [h]
    dsimp only
    rw [hl]
  · intro md prev h hl hne
    unfold isUpToDate
    rw [h]
    dsimp only
    rw [hl]
    simp [Ne.symm hne]

/-- Witness for C2 at a concrete input: a head failure (missing key on the
empty store) yields `(false, nil)`. -/
theorem isUpToDate_never_errors_witness :
    (isUpToDate envW [] "s/f.zip" "H1").2 = none ∧
      (isUpToDate envW [] "s/f.zip" "H1").1 = false :=
  ⟨(isUpToDate_never_errors envW [] "s/f.zip" "H1").1,
    (isUpToDate_never_errors envW [] "s/f.zip" "H1").2.1 (by decide)⟩

/-- Two environments that agree on every call outcome except those of the
deferred cleanup deletes. -/
def Env.SameButDelete (env2 env : Env) : Prop :=
  env2.hashSourceCode = env.hashSourceCode ∧ env2.headFail = env.headFail ∧
  env2.buildExecutable = env.buildExecutable ∧ env2.zipExecutable = env.zipExecutable ∧
  env2.sizeExecutable = env.sizeExecutable ∧ env2.putObject = env.putObject ∧
  env2.startSigningJob = env.startSigningJob ∧
  env2.waitForSigningJob = env.waitForSigningJob ∧
  env2.getObject = env.getObject ∧ env2.hashObject = env.hashObject ∧
  env2.copyObject = env.copyObject ∧ env2.updateFunctionCode = env.updateFunctionCode ∧
  env2.waitForFunctionUpdate = env.waitForFunctionUpdate ∧
  env2.publishLambdaVersion = env.publishLambdaVersion ∧
  env2.updateFunctionAlias = env.updateFunctionAlias

theorem fnCalls_congr {env2 env : Env} (h : Env.SameButDelete env2 env) :
    fnCalls env2 = fnCalls env := by
  unfold fnCalls
  rw [h.2.2.2.2.2.2.2.2.2.2.2.1, h.2.2.2.2.2.2.2.2.2.2.2.2.1, h.2.2.2.2.2.2.2.2.2.2.2.2.2.1]

theorem fnResult_congr {env2 env : Env} (h : Env.SameButDelete env2 env) :
    fnResult env2 = fnResult env := by
  unfold fnResult
  rw [h.2.2.2.2.2.2.2.2.2.2.2.1, h.2.2.2.2.2.2.2.2.2.2.2.2.1, h.2.2.2.2.2.2.2.2.2.2.2.2.2.1,
    h.2.2.2.2.2.2.2.2.2.2.2.2.2.2]

theorem runFromGet_congr {env2 env : Env} (h : Env.SameButDelete env2 env) (cfg : Config)
    (st : Store) (ks sk uh : String) :
    runFromGet cfg env2 st ks sk uh = runFromGet cfg env st ks sk uh := by
  unfold runFromGet
  rw [h.2.2.2.2.2.2.2.2.1, h.2.2.2.2.2.2.2.2.2.1, h.2.2.2.2.2.2.2.2.2.2.1,
    fnCalls_congr h, fnResult_congr h]

theorem runFromSign_result_congr {env2 env : Env} (h : Env.SameButDelete env2 env)
    (cfg : Config) (st : Store) (sk uh : String) :
    (runFromSign cfg env2 st sk uh).result = (runFromSign cfg env st sk uh).result := by
  unfold runFromSign
  rw [h.2.2.2.2.2.2.1, h.2.2.2.2.2.2.2.1]
  cases env.startSigningJob with
  | error e => rfl
  | ok jobId =>
    cases env.waitForSigningJob with
    | error e => rfl
    | ok u =>
      dsimp only
      rw [runFromGet_congr h]

theorem runFromZip_result_congr {env2 env : Env} (h : Env.SameButDelete env2 env)
    (cfg : Config) (st : Store) (uk sk uh : String) :
    (runFromZip cfg env2 st uk sk uh).result = (runFromZip cfg env st uk sk uh).result := by
  unfold runFromZip
  rw [h.2.2.2.1, h.2.2.2.2.1, h.2.2.2.2.2.1]
  cases env.zipExecutable with
  | error e => rfl
  | ok u =>
    dsimp only
    cases env.sizeExecutable with
    | error e => rfl
    | ok u2 =>
      dsimp only
      cases env.putObject with
      | error e => rfl
      | ok v =>
        dsimp only
        rw [runFromSign_result_congr h]

theorem runFromBuild_result_congr {env2 env : Env} (h : Env.SameButDelete env2 env)
    (cfg : Config) (st : Store) (folder uh : String) :
    (runFromBuild cfg env2 st folder uh).result = (runFromBuild cfg env st folder uh).result := by
  unfold runFromBuild
  rw [h.2.2.1]
  cases env.buildExecutable with
  | error e => rfl
  | ok u =>
    dsimp only
    rw [runFromZip_result_congr h]

theorem isUpToDate_congr {env2 env : Env} (h : env2.headFail = env.headFail)
    (st : Store) (k fp : String) :
    isUpToDate env2 st k fp = isUpToDate env st k fp := by
  unfold isUpToDate headObject
  rw [h]

theorem run_result_congr {env2 env : Env} (h : Env.SameButDelete env2 env)
    (cfg : Config) (st : Store) (folder : String) :
    (run cfg env2 st folder).result = (run cfg env st folder).result := by
  unfold run
  rw [h.1]
  cases env.hashSourceCode with
  | error e => rfl
  | ok uh =>
    dsimp only
    rw [isUpToDate_congr h.2.1]
    cases cfg.force with
    | true =>
      rw [runFromBuild_result_congr h]
      rfl
    | false =>
      cases (isUpToDate env st (signedKey cfg folder) uh).2 with
      | some e => rfl
      | none =>
        cases (isUpToDate env st (signedKey cfg folder) uh).1 with
        | true => rfl
        | false =>
          rw [runFromBuild_result_congr h]
          rfl

theorem runFromZip_cases (cfg : Config) (env : Env) (st : Store) (uk sk uh : String) :
    (∃ e, runFromZip cfg env st uk sk uh = ⟨some e, st, [Event.zip]⟩) ∨
    (∃ e, runFromZip cfg env st uk sk uh = ⟨some e, st, [Event.zip, Event.size]⟩) ∨
    (∃ e, env.putObject = Except.error e ∧
      runFromZip cfg env st uk sk uh = ⟨some e, st, [Event.zip, Event.size, Event.put uk]⟩) ∨
    (∃ v, env.putObject = Except.ok v ∧
      runFromZip cfg env st uk sk uh =
        ⟨(runFromSign cfg env (storePut st uk ⟨none⟩) sk uh).result,
          runDelete env (runFromSign cfg env (storePut st uk ⟨none⟩) sk uh).store uk,
          [Event.zip, Event.size, Event.put uk] ++
            (runFromSign cfg env (storePut st uk ⟨none⟩) sk uh).trace ++ [Event.deleteObj uk]⟩) := by
  unfold runFromZip
  cases hz : env.zipExecutable with
  | error e => exact Or.inl ⟨e, rfl⟩
  | ok u =>
    cases hs : env.sizeExecutable with
    | error e => exact Or.inr (Or.inl ⟨e, rfl⟩)
    | ok u2 =>
      cases hp : env.putObject with
      | error e => exact Or.inr (Or.inr (Or.inl ⟨e, rfl, rfl⟩))
      | ok v => exact Or.inr (Or.inr (Or.inr ⟨v, rfl, rfl⟩))

theorem runFromBuild_cases (cfg : Config) (env : Env) (st : Store) (folder uh : String) :
    (∃ e, runFromBuild cfg env st folder uh = ⟨some e, st, [Event.build]⟩) ∨
    runFromBuild cfg env st folder uh =
      ⟨(runFromZip cfg env st (unsignedKey cfg folder) (signedKey cfg folder) uh).result,
        (runFromZip cfg env st (unsignedKey cfg folder) (signedKey cfg folder) uh).store,
        Event.build ::
          (runFromZip cfg env st (unsignedKey cfg folder) (signedKey cfg folder) uh).trace ++
            [Event.deleteFile (executablePath folder)]⟩ := by
  unfold runFromBuild
  cases hb : env.buildExecutable with
  | error e => exact Or.inl ⟨e, rfl⟩
  | ok u => exact Or.inr rfl

theorem run_cases (cfg : Config) (env : Env) (st : Store) (folder : String) :
    (∃ e, run cfg env st folder = ⟨some e, st, [Event.hashSource]⟩) ∨
    (∃ uh, env.hashSourceCode = Except.ok uh ∧
      run cfg env st folder =
        ⟨none, st, [Event.hashSource, Event.headObject (signedKey cfg folder)]⟩ ∧
      (isUpToDate env st (signedKey cfg folder) uh).1 = true ∧ cfg.force = false) ∨
    (∃ uh pre, env.hashSourceCode = Except.ok uh ∧
      (pre = [Event.hashSource] ∨
        pre = [Event.hashSource, Event.headObject (signedKey cfg folder)]) ∧
      run cfg env st folder =
        ⟨(runFromBuild cfg env st folder uh).result, (runFromBuild cfg env st folder uh).store,
          pre ++ (runFromBuild cfg env st folder uh).trace⟩) := by
  unfold run
  cases hh : env.hashSourceCode with
  | error e => exact Or.inl ⟨e, rfl⟩
  | ok uh =>
    dsimp only
    cases hf : cfg.force with
    | true => exact Or.inr (Or.inr ⟨uh, [Event.hashSource], rfl, Or.inl rfl, rfl⟩)
    | false =>
      cases hu2 : (isUpToDate env st (signedKey cfg folder) uh).2 with
      | some e => rw [isUpToDate_err] at hu2; exact absurd hu2 (by simp)
      | none =>
        dsimp only
        cases hu : (isUpToDate env st (signedKey cfg folder) uh).1 with
        | true => exact Or.inr (Or.inl ⟨uh, rfl, rfl, hu, rfl⟩)
        | false =>
          exact Or.inr (Or.inr
            ⟨uh, [Event.hashSource, Event.headObject (signedKey cfg folder)], rfl,
              Or.inr rfl, rfl⟩)

theorem runFromZip_delete_mem {cfg : Config} {env : Env} {st : Store} {uk sk uh v : String}
    (hput : env.putObject = Except.ok v)
    (hmem : Event.put uk ∈ (runFromZip cfg env st uk sk uh).trace) :
    Event.deleteObj uk ∈ (runFromZip cfg env st uk sk uh).trace := by
  rcases runFromZip_cases cfg env st uk sk uh with ⟨e, hr⟩ | ⟨e, hr⟩ | ⟨e, hp, hr⟩ | ⟨v2, hp, hr⟩
  · rw [hr] at hmem; simp at hmem
  · rw [hr] at hmem; simp at hmem
  · rw [hp] at hput; exact absurd hput (by simp)
  · rw [hr]; simp

theorem runFromBuild_delete_mem {cfg : Config} {env : Env} {st : Store} {folder uh v : String}
    (hput : env.putObject = Except.ok v)
    (hmem : Event.put (unsignedKey cfg folder) ∈ (runFromBuild cfg env st folder uh).trace) :
    Event.deleteObj (unsignedKey cfg folder) ∈ (runFromBuild cfg env st folder uh).trace := by
  rcases runFromBuild_cases cfg env st folder uh with ⟨e, hr⟩ | hr
  · rw [hr] at hmem; simp at hmem
  · rw [hr] at hmem ⊢
    dsimp only at hmem ⊢
    have hm2 : Event.put (unsignedKey cfg folder) ∈
        (runFromZip cfg env st (unsignedKey cfg folder) (signedKey cfg folder) uh).trace := by
      rcases List.mem_cons.mp hmem with h1 | h1
      · exact absurd h1 (by simp)
      · rcases List.mem_append.mp h1 with h2 | h2
        · exact h2
        · exact absurd h2 (by simp)
    exact List.mem_cons_of_mem _
      (List.mem_append.mpr (Or.inl (runFromZip_delete_mem hput hm2)))

theorem run_delete_mem {cfg : Config} {env : Env} {st : Store} {folder v : String}
    (hput : env.putObject = Except.ok v)
    (hmem : Event.put (unsignedKey cfg folder) ∈ (run cfg env st folder).trace) :
    Event.deleteObj (unsignedKey cfg folder) ∈ (run cfg env st folder).trace := by
  rcases run_cases cfg env st folder with ⟨e, hr⟩ | ⟨uh, _, hr, _, _⟩ | ⟨uh, pre, hh, hpre, hr⟩
  · rw [hr] at hmem; simp at hmem
  · rw [hr] at hmem; simp at hmem
  · rw [hr] at hmem ⊢
    dsimp only at hmem ⊢
    have hnp : Event.put (unsignedKey cfg folder) ∉ pre := by
      rcases hpre with rfl | rfl <;> simp
    have hm2 : Event.put (unsignedKey cfg folder) ∈
        (runFromBuild cfg env st folder uh).trace := by
      rcases List.mem_append.mp hmem with h1 | h1
      · exact absurd h1 hnp
      · exact h1
    exact List.mem_append.mpr (Or.inr (runFromBuild_delete_mem hput hm2))

/-- C4: whenever the unsigned upload (`putObject`) succeeded, the deferred
delete of the unsigned store object is performed before `run` returns,
whether the later stages succeed or fail; and a failure of that cleanup
delete never replaces or alters the result `run` returns for the folder. -/
theorem unsigned_cleanup (cfg : Config) (env : Env) (st : Store) (folder v : String)
    (hput : env.putObject = Except.ok v)
    (hmem : Event.put (unsignedKey cfg folder) ∈ (run cfg env st folder).trace) :
    Event.deleteObj (unsignedKey cfg folder) ∈ (run cfg env st folder).trace ∧
    ∀ dof : String → Bool,
      (run cfg { env with deleteObjectFail := dof } st folder).result =
        (run cfg env st folder).result :=
  ⟨run_delete_mem hput hmem, fun dof =>
    @run_result_congr { env with deleteObjectFail := dof } env
      ⟨rfl, rfl, rfl, rfl, rfl, rfl, rfl, rfl, rfl, rfl, rfl, rfl, rfl, rfl, rfl⟩
      cfg st folder⟩

/-- Witness for C4 at a concrete input: a full successful run uploads the
unsigned package and deletes it again, and making every cleanup delete fail
does not change the run's result. -/
theorem unsigned_cleanup_witness :
    Event.deleteObj (unsignedKey cfgW "f") ∈ (run cfgW envW [] "f").trace ∧
    ∀ dof : String → Bool,
      (run cfgW { envW with deleteObjectFail := dof } [] "f").result =
        (run cfgW envW [] "f").result :=
  unsigned_cleanup cfgW envW [] "f" "v1" rfl (by decide)

theorem runFromSign_cases (cfg : Config) (env : Env) (st : Store) (sk uh : String) :
    (∃ e, runFromSign cfg env st sk uh = ⟨some e, st, [Event.startSign]⟩) ∨
    (∃ e, runFromSign cfg env st sk uh = ⟨some e, st, [Event.startSign, Event.waitSign]⟩) ∨
    (∃ j, env.startSigningJob = Except.ok j ∧ env.waitForSigningJob = Except.ok () ∧
      runFromSign cfg env st sk uh =
        ⟨(runFromGet cfg env st (stagingKey cfg j) sk uh).result,
          runDelete env (runFromGet cfg env st (stagingKey cfg j) sk uh).store (stagingKey cfg j),
          [Event.startSign, Event.waitSign] ++
            (runFromGet cfg env st (stagingKey cfg j) sk uh).trace ++
            [Event.deleteObj (stagingKey cfg j)]⟩) := by
  unfold runFromSign
  cases hsj : env.startSigningJob with
  | error e => exact Or.inl ⟨e, rfl⟩
  | ok j =>
    cases hw : env.waitForSigningJob with
    | error e => exact Or.inr (Or.inl ⟨e, rfl⟩)
    | ok u =>
      cases u
      exact Or.inr (Or.inr ⟨j, rfl, rfl, rfl⟩)

theorem runFromGet_cases (cfg : Config) (env : Env) (st : Store) (ks sk uh : String) :
    (∃ e, runFromGet cfg env st ks sk uh = ⟨some e, st, [Event.getObj ks]⟩) ∨
    (∃ e, runFromGet cfg env st ks sk uh = ⟨some e, st, [Event.getObj ks, Event.hashObj]⟩) ∨
    (∃ e, runFromGet cfg env st ks sk uh =
      ⟨some e, st, [Event.getObj ks, Event.hashObj, Event.copy sk]⟩) ∨
    (∃ sh, env.hashObject = Except.ok sh ∧ cfg.noUpdateFunctions = true ∧
      runFromGet cfg env st ks sk uh =
        ⟨none, storePut st sk ⟨some (normalizeMeta [("unsignedHash", uh), ("signedHash", sh),
          ("source-code-hash", sh)])⟩, [Event.getObj ks, Event.hashObj, Event.copy sk]⟩) ∨
    (∃ sh, env.hashObject = Except.ok sh ∧ cfg.noUpdateFunctions = false ∧
      runFromGet cfg env st ks sk uh =
        ⟨fnResult env, storePut st sk ⟨some (normalizeMeta [("unsignedHash", uh),
          ("signedHash", sh), ("source-code-hash", sh)])⟩,
          [Event.getObj ks, Event.hashObj, Event.copy sk] ++ fnCalls env⟩) := by
  unfold runFromGet
  cases hg : env.getObject with
  | error e => exact Or.inl ⟨e, rfl⟩
  | ok u =>
    cases hho : env.hashObject with
    | error e => exact Or.inr (Or.inl ⟨e, rfl⟩)
    | ok sh =>
      cases hc : env.copyObject with
      | error e => exact Or.inr (Or.inr (Or.inl ⟨e, rfl⟩))
      | ok u2 =>
        cases hnu : cfg.noUpdateFunctions with
        | true => exact Or.inr (Or.inr (Or.inr (Or.inl ⟨sh, rfl, rfl, rfl⟩)))
        | false => exact Or.inr (Or.inr (Or.inr (Or.inr ⟨sh, rfl, rfl, rfl⟩)))

theorem fnCalls_updateCode_mem (env : Env) : Event.updateCode ∈ fnCalls env := by
  unfold fnCalls
  cases env.updateFunctionCode with
  | error e => simp
  | ok u =>
    cases env.waitForFunctionUpdate with
    | error e => simp
    | ok u2 =>
      cases env.publishLambdaVersion with
      | error e => simp
      | ok v => simp

theorem fnCalls_upd_err {env : Env} {e : Err} (h : env.updateFunctionCode = Except.error e) :
    fnCalls env = [Event.updateCode] ∧ fnResult env = some e := by
  unfold fnCalls fnResult
  rw [h]
  exact ⟨rfl, rfl⟩

theorem fnCalls_wait_mem {env : Env} (h : Event.waitUpdate ∈ fnCalls env) :
    env.updateFunctionCode = Except.ok () := by
  unfold fnCalls at h
  revert h
  cases env.updateFunctionCode with
  | error e => intro h; simp at h
  | ok u => intro h; cases u; rfl

theorem fnCalls_wait_err {env : Env} {e : Err} (h : env.waitForFunctionUpdate = Except.error e)
    (hm : Event.waitUpdate ∈ fnCalls env) :
    fnResult env = some e ∧ Event.updateAlias ∉ fnCalls env := by
  have hc := fnCalls_wait_mem hm
  unfold fnResult fnCalls
  rw [hc, h]
  exact ⟨rfl, by simp⟩

theorem fnCalls_pub_mem {env : Env} (h : Event.publishVersion ∈ fnCalls env) :
    env.updateFunctionCode = Except.ok () ∧ env.waitForFunctionUpdate = Except.ok () := by
  unfold fnCalls at h
  revert h
  cases env.updateFunctionCode with
  | error e => intro h; simp at h
  | ok u =>
    cases u
    cases env.waitForFunctionUpdate with
    | error e => intro h; simp at h
    | ok u2 => intro h; cases u2; exact ⟨rfl, rfl⟩

theorem fnCalls_pub_err {env : Env} {e : Err} (h : env.publishLambdaVersion = Except.error e)
    (hm : Event.publishVersion ∈ fnCalls env) :
    fnResult env = some e ∧ Event.updateAlias ∉ fnCalls env := by
  obtain ⟨hc, hw⟩ := fnCalls_pub_mem hm
  unfold fnResult fnCalls
  rw [hc, hw, h]
  exact ⟨rfl, by simp⟩

theorem fnCalls_alias {env : Env} (h : Event.updateAlias ∈ fnCalls env) :
    env.updateFunctionCode = Except.ok () ∧ env.waitForFunctionUpdate = Except.ok () ∧
    (∃ v, env.publishLambdaVersion = Except.ok v) ∧
    fnCalls env =
      [Event.updateCode, Event.waitUpdate, Event.publishVersion, Event.updateAlias] := by
  unfold fnCalls at h ⊢
  revert h
  cases env.updateFunctionCode with
  | error e => intro h; simp at h
  | ok u =>
    cases u
    cases env.waitForFunctionUpdate with
    | error e => intro h; simp at h
    | ok u2 =>
      cases u2
      cases env.publishLambdaVersion with
      | error e => intro h; simp at h
      | ok v => intro h; exact ⟨rfl, rfl, ⟨v, rfl⟩, rfl⟩

/-- A function-update event in the run trace pins down the whole reach: the
run performed these calls as the tail of its trace, with the run result
coming from the function-update segment. -/
theorem fn_mem_run {ev : Event} (hev : Event.isFnCall ev = true)
    {cfg : Config} {env : Env} {st : Store} {folder : String}
    (hmem : ev ∈ (run cfg env st folder).trace) :
    ev ∈ fnCalls env ∧ (run cfg env st folder).result = fnResult env ∧
    ∃ pre suf, (run cfg env st folder).trace = pre ++ fnCalls env ++ suf := by
  rcases run_cases cfg env st folder with ⟨e, hr⟩ | ⟨uh, _, hr, _, _⟩ | ⟨uh, pre0, hh, hpre, hr⟩
  · rw [hr] at hmem; simp at hmem; subst hmem; simp [Event.isFnCall] at hev
  · rw [hr] at hmem; simp at hmem
    rcases hmem with h1 | h1 <;> (subst h1; simp [Event.isFnCall] at hev)
  · rw [hr] at hmem ⊢
    dsimp only at hmem ⊢
    have hnp0 : ev ∉ pre0 := by
      rcases hpre with rfl | rfl <;> cases ev <;> simp_all [Event.isFnCall]
    have hm1 : ev ∈ (runFromBuild cfg env st folder uh).trace := by
      rcases List.mem_append.mp hmem with h1 | h1
      · exact absurd h1 hnp0
      · exact h1
    rcases runFromBuild_cases cfg env st folder uh with ⟨e, hr1⟩ | hr1
    · rw [hr1] at hm1; simp at hm1; subst hm1; simp [Event.isFnCall] at hev
    · rw [hr1] at hm1
      dsimp only at hm1
      have hm2 : ev ∈ (runFromZip cfg env st (unsignedKey cfg folder)
          (signedKey cfg folder) uh).trace := by
        rcases List.mem_cons.mp hm1 with h1 | h1
        · subst h1; simp [Event.isFnCall] at hev
        · rcases List.mem_append.mp h1 with h2 | h2
          · exact h2
          · simp at h2; subst h2; simp [Event.isFnCall] at hev
      rcases runFromZip_cases cfg env st (unsignedKey cfg folder) (signedKey cfg folder) uh
        with ⟨e, hr2⟩ | ⟨e, hr2⟩ | ⟨e, _, hr2⟩ | ⟨v, _, hr2⟩
      · rw [hr2] at hm2; simp at hm2; subst hm2; simp [Event.isFnCall] at hev
      · rw [hr2] at hm2; simp at hm2
        rcases hm2 with h1 | h1 <;> (subst h1; simp [Event.isFnCall] at hev)
      · rw [hr2] at hm2; simp at hm2
        rcases hm2 with h1 | h1 | h1 <;> (subst h1; simp [Event.isFnCall] at hev)
      · rw [hr2] at hm2
        dsimp only at hm2
        have hm3 : ev ∈ (runFromSign cfg env
            (storePut st (unsignedKey cfg folder) ⟨none⟩) (signedKey cfg folder) uh).trace := by
          rcases List.mem_append.mp hm2 with h1 | h1
          · rcases List.mem_append.mp h1 with h2 | h2
            · simp at h2
              rcases h2 with h3 | h3 | h3 <;> (subst h3; simp [Event.isFnCall] at hev)
            · exact h2
          · simp at h1; subst h1; simp [Event.isFnCall] at hev
        rcases runFromSign_cases cfg env (storePut st (unsignedKey cfg folder) ⟨none⟩)
            (signedKey cfg folder) uh with ⟨e, hr3⟩ | ⟨e, hr3⟩ | ⟨j, _, _, hr3⟩
        · rw [hr3] at hm3; simp at hm3; subst hm3; simp [Event.isFnCall] at hev
        · rw [hr3] at hm3; simp at hm3
          rcases hm3 with h1 | h1 <;> (subst h1; simp [Event.isFnCall] at hev)
        · rw [hr3] at hm3
          dsimp only at hm3
          have hm4 : ev ∈ (runFromGet cfg env
              (storePut st (unsignedKey cfg folder) ⟨none⟩) (stagingKey cfg j)
              (signedKey cfg folder) uh).trace := by
            rcases List.mem_append.mp hm3 with h1 | h1
            · rcases List.mem_append.mp h1 with h2 | h2
              · simp at h2
                rcases h2 with h3 | h3 <;> (subst h3; simp [Event.isFnCall] at hev)
              · exact h2
            · simp at h1; subst h1; simp [Event.isFnCall] at hev
          rcases runFromGet_cases cfg env (storePut st (unsignedKey cfg folder) ⟨none⟩)
              (stagingKey cfg j) (signedKey cfg folder) uh
            with ⟨e, hr4⟩ | ⟨e, hr4⟩ | ⟨e, hr4⟩ | ⟨sh, _, _, hr4⟩ | ⟨sh, _, _, hr4⟩
          · rw [hr4] at hm4; simp at hm4; subst hm4; simp [Event.isFnCall] at hev
          · rw [hr4] at hm4; simp at hm4
            rcases hm4 with h1 | h1 <;> (subst h1; simp [Event.isFnCall] at hev)
          · rw [hr4] at hm4; simp at hm4
            rcases hm4 with h1 | h1 | h1 <;> (subst h1; simp [Event.isFnCall] at hev)
          · rw [hr4] at hm4; simp at hm4
            rcases hm4 with h1 | h1 | h1 <;> (subst h1; simp [Event.isFnCall] at hev)
          · rw [hr4] at hm4
            dsimp only at hm4
            have hm5 : ev ∈ fnCalls env := by
              rcases List.mem_append.mp hm4 with h1 | h1
              · simp at h1
                rcases h1 with h3 | h3 | h3 <;> (subst h3; simp [Event.isFnCall] at hev)
              · exact h1
            refine ⟨hm5, ?_, ?_⟩
            · rw [hr1, hr2, hr3, hr4]
            · refine ⟨pre0 ++ Event.build :: [Event.zip, Event.size,
                Event.put (unsignedKey cfg folder), Event.startSign, Event.waitSign,
                Event.getObj (stagingKey cfg j), Event.hashObj,
                Event.copy (signedKey cfg folder)],
                [Event.deleteObj (stagingKey cfg j), Event.deleteObj (unsignedKey cfg folder),
                  Event.deleteFile (executablePath folder)], ?_⟩
              rw [hr1, hr2, hr3, hr4]
              simp

/-- C6: in a run with function updates enabled, the alias is updated only
after `updateFunctionCode`, `waitForFunctionUpdate` and
`publishLambdaVersion` have all succeeded, in that order; if any of the
three fails, `run` returns that error and the alias call never happens. -/
theorem alias_only_after_success (cfg : Config) (env : Env) (st : Store) (folder : String) :
    (Event.updateAlias ∈ (run cfg env st folder).trace →
      env.updateFunctionCode = Except.ok () ∧ env.waitForFunctionUpdate = Except.ok () ∧
      (∃ v, env.publishLambdaVersion = Except.ok v) ∧
      List.Sublist [Event.updateCode, Event.waitUpdate, Event.publishVersion,
        Event.updateAlias] (run cfg env st folder).trace) ∧
    (∀ e, env.updateFunctionCode = Except.error e →
      Event.updateCode ∈ (run cfg env st folder).trace →
      (run cfg env st folder).result = some e ∧
        Event.updateAlias ∉ (run cfg env st folder).trace) ∧
    (∀ e, env.waitForFunctionUpdate = Except.error e →
      Event.waitUpdate ∈ (run cfg env st folder).trace →
      (run cfg env st folder).result = some e ∧
        Event.updateAlias ∉ (run cfg env st folder).trace) ∧
    (∀ e, env.publishLambdaVersion = Except.error e →
      Event.publishVersion ∈ (run cfg env st folder).trace →
      (run cfg env st folder).result = some e ∧
        Event.updateAlias ∉ (run cfg env st folder).trace) := by
  have hevA : Event.isFnCall Event.updateAlias = true := rfl
  have hevC : Event.isFnCall Event.updateCode = true := rfl
  have hevW : Event.isFnCall Event.waitUpdate = true := rfl
  have hevP : Event.isFnCall Event.publishVersion = true := rfl
  refine ⟨?_, ?_, ?_, ?_⟩
  · intro hm
    obtain ⟨hfc, hres, pre, suf, htr⟩ := fn_mem_run hevA hm
    obtain ⟨h1, h2, h3, heq⟩ := fnCalls_alias hfc
    refine ⟨h1, h2, h3, ?_⟩
    rw [htr, ← heq, List.append_assoc]
    exact (List.sublist_append_left _ _).trans (List.sublist_append_right _ _)
  · intro e he hm
    obtain ⟨_, hres, _⟩ := fn_mem_run hevC hm
    obtain ⟨hfc, hfr⟩ := fnCalls_upd_err he
    refine ⟨by rw [hres, hfr], ?_⟩
    intro hal
    have := (fn_mem_run hevA hal).1
    rw [hfc] at this
    simp at this
  · intro e he hm
    obtain ⟨hfc, hres, _⟩ := fn_mem_run hevW hm
    obtain ⟨hfr, hnal⟩ := fnCalls_wait_err he hfc
    refine ⟨by rw [hres, hfr], ?_⟩
    intro hal
    exact hnal (fn_mem_run hevA hal).1
  · intro e he hm
    obtain ⟨hfc, hres, _⟩ := fn_mem_run hevP hm
    obtain ⟨hfr, hnal⟩ := fnCalls_pub_err he hfc
    refine ⟨by rw [hres, hfr], ?_⟩
    intro hal
    exact hnal (fn_mem_run hevA hal).1

/-- Witness for C6 at a concrete input: with a failing wait-for-update the
run returns that error and the alias is never touched. -/
theorem alias_only_after_success_witness :
    (run cfgW envW6 [] "f").result = some "w" ∧
      Event.updateAlias ∉ (run cfgW envW6 [] "f").trace :=
  (alias_only_after_success cfgW envW6 [] "f").2.2.1 "w" rfl (by decide)

theorem lookup_copied_meta (fp sh : String) :
    lookupMeta (normalizeMeta [("unsignedHash", fp), ("signedHash", sh),
      ("source-code-hash", sh)]) "unsignedhash" = some fp := by
  have hkey : ((lowerStr "unsignedHash") == "unsignedhash") = true := by decide
  simp [normalizeMeta, lookupMeta, List.find?_cons, hkey]

theorem headObject_some_inv {env : Env} {st : Store} {k : String} {mo : Option Metadata}
    (h : headObject env st k = some mo) : storeGet st k = some ⟨mo⟩ := by
  unfold headObject at h
  by_cases hf : env.headFail k = true
  · rw [hf] at h; simp at h
  · simp only [Bool.not_eq_true] at hf
    rw [hf] at h
    simp only [Bool.false_eq_true, if_false] at h
    cases hg : storeGet st k with
    | none => rw [hg] at h; simp at h
    | some obj =>
      rw [hg] at h
      simp only [Option.some.injEq] at h
      cases obj
      rw [← h]

theorem runFromGet_store_of_ok {env : Env} {sh : String} (cfg : Config) (st : Store)
    (ks sk uh : String)
    (hg : env.getObject = Except.ok ()) (hho : env.hashObject = Except.ok sh)
    (hc : env.copyObject = Except.ok ()) :
    (runFromGet cfg env st ks sk uh).store =
      storePut st sk ⟨some (normalizeMeta [("unsignedHash", uh), ("signedHash", sh),
        ("source-code-hash", sh)])⟩ := by
  unfold runFromGet
  rw [hg, hho, hc]
  cases cfg.noUpdateFunctions <;> rfl

theorem runFromSign_store_of_ok {env : Env} {j : String} (cfg : Config) (st : Store)
    (sk uh : String)
    (hsj : env.startSigningJob = Except.ok j) (hw : env.waitForSigningJob = Except.ok ()) :
    (runFromSign cfg env st sk uh).store =
      runDelete env (runFromGet cfg env st (stagingKey cfg j) sk uh).store
        (stagingKey cfg j) := by
  unfold runFromSign
  rw [hsj, hw]

theorem runFromZip_store_of_ok {env : Env} {v : String} (cfg : Config) (st : Store)
    (uk sk uh : String)
    (hz : env.zipExecutable = Except.ok ()) (hs : env.sizeExecutable = Except.ok ())
    (hp : env.putObject = Except.ok v) :
    (runFromZip cfg env st uk sk uh).store =
      runDelete env (runFromSign cfg env (storePut st uk ⟨none⟩) sk uh).store uk := by
  unfold runFromZip
  rw [hz, hs, hp]

theorem runFromBuild_store_of_ok {env : Env} (cfg : Config) (st : Store) (folder uh : String)
    (hb : env.buildExecutable = Except.ok ()) :
    (runFromBuild cfg env st folder uh).store =
      (runFromZip cfg env st (unsignedKey cfg folder) (signedKey cfg folder) uh).store := by
  unfold runFromBuild
  rw [hb]

theorem run_store_of_proceed {env : Env} {uh : String} (cfg : Config) (st : Store)
    (folder : String)
    (hh : env.hashSourceCode = Except.ok uh)
    (hpr : cfg.force = true ∨
      (cfg.force = false ∧ (isUpToDate env st (signedKey cfg folder) uh).1 = false)) :
    (run cfg env st folder).store = (runFromBuild cfg env st folder uh).store := by
  unfold run
  rw [hh]
  dsimp only
  rcases hpr with hf | ⟨hf, hu⟩
  · rw [hf]
    rfl
  · rw [hf, isUpToDate_err, hu]
    rfl

/-- A non-forced run over a store whose signed key already carries the given
fingerprint exits early: it hashes, heads the signed key, and returns. -/
theorem run_skip_eval {env : Env} {md : Metadata} (cfg : Config) (st : Store)
    (folder uh : String)
    (hh : env.hashSourceCode = Except.ok uh)
    (hforce : cfg.force = false)
    (hhead : env.headFail (signedKey cfg folder) = false)
    (hget : storeGet st (signedKey cfg folder) = some ⟨some md⟩)
    (hlu : lookupMeta md "unsignedhash" = some uh) :
    run cfg env st folder =
      ⟨none, st, [Event.hashSource, Event.headObject (signedKey cfg folder)]⟩ := by
  have hu : (isUpToDate env st (signedKey cfg folder) uh).1 = true := by
    refine (isUpToDate_true_iff env st (signedKey cfg folder) uh).mpr ⟨md, ?_, hlu⟩
    unfold headObject
    rw [hhead, hget]
    rfl
  unfold run
  rw [hh]
  dsimp only
  rw [hforce, isUpToDate_err, hu]
  rfl

/-- C1: for a folder whose source fingerprint is unchanged, running the
pipeline a second time with `force=false` performs zero store-write calls:
the second run hashes, the freshness check finds on the signed key exactly
the fingerprint the first run's copy step stored there (written as
`unsignedHash`, read back lowercased as `unsignedhash` per S3 metadata
semantics), and the run returns success with only the hash and head calls in
its trace — before `buildExecutable`, `putObject`, `copyObject` or any
function-update call. -/
theorem second_run_no_store_writes (cfg : Config) (env env2 : Env) (st : Store)
    (folder fp : String)
    (hok : Env.AllOk env) (hh : env.hashSourceCode = Except.ok fp)
    (hh2 : env2.hashSourceCode = Except.ok fp)
    (hhead : env2.headFail (signedKey cfg folder) = false)
    (hneq : unsignedKey cfg folder ≠ signedKey cfg folder)
    (hstag : ∀ j, env.startSigningJob = Except.ok j →
      stagingKey cfg j ≠ signedKey cfg folder) :
    run { cfg with force := false } env2 ((run cfg env st folder).store) folder =
      ⟨none, (run cfg env st folder).store,
        [Event.hashSource, Event.headObject (signedKey cfg folder)]⟩ ∧
    List.filter Event.isStoreWrite
      (run { cfg with force := false } env2 ((run cfg env st folder).store) folder).trace =
      [] := by
  obtain ⟨hb, hz, hsz, ⟨v, hp⟩, ⟨j, hsj⟩, hw, hg, ⟨sh, hho⟩, hc, _, _, _, _⟩ := hok
  have hkey : ∃ md, storeGet ((run cfg env st folder).store) (signedKey cfg folder) =
      some ⟨some md⟩ ∧ lookupMeta md "unsignedhash" = some fp := by
    by_cases hskip : cfg.force = false ∧ (isUpToDate env st (signedKey cfg folder) fp).1 = true
    · obtain ⟨hf, hu⟩ := hskip
      have hrun : run cfg env st folder =
          ⟨none, st, [Event.hashSource, Event.headObject (signedKey cfg folder)]⟩ := by
        unfold run
        rw [hh]
        dsimp only
        rw [hf, isUpToDate_err, hu]
        rfl
      rw [hrun]
      obtain ⟨md, hho2, hlu⟩ := (isUpToDate_true_iff env st (signedKey cfg folder) fp).mp hu
      exact ⟨md, headObject_some_inv hho2, hlu⟩
    · have hpr : cfg.force = true ∨
          (cfg.force = false ∧ (isUpToDate env st (signedKey cfg folder) fp).1 = false) := by
        cases hf : cfg.force with
        | true => exact Or.inl rfl
        | false =>
          cases hu : (isUpToDate env st (signedKey cfg folder) fp).1 with
          | true => exact absurd ⟨hf, hu⟩ hskip
          | false => exact Or.inr ⟨rfl, rfl⟩
      rw [run_store_of_proceed cfg st folder hh hpr,
        runFromBuild_store_of_ok cfg st folder fp hb,
        runFromZip_store_of_ok cfg st (unsignedKey cfg folder) (signedKey cfg folder) fp
          hz hsz hp,
        runFromSign_store_of_ok cfg (storePut st (unsignedKey cfg folder) ⟨none⟩)
          (signedKey cfg folder) fp hsj hw,
        runFromGet_store_of_ok cfg (storePut st (unsignedKey cfg folder) ⟨none⟩)
          (stagingKey cfg j) (signedKey cfg folder) fp hg hho hc]
      refine ⟨normalizeMeta [("unsignedHash", fp), ("signedHash", sh),
        ("source-code-hash", sh)], ?_, lookup_copied_meta fp sh⟩
      rw [storeGet_runDelete_ne (Ne.symm hneq), storeGet_runDelete_ne
        (Ne.symm (hstag j hsj))]
      exact storeGet_put_self _ _ _
  obtain ⟨md, hget2, hlu⟩ := hkey
  have hrun2 := run_skip_eval { cfg with force := false } ((run cfg env st folder).store)
    folder fp hh2 rfl hhead hget2 hlu
  refine ⟨hrun2, ?_⟩
  rw [hrun2]
  rfl

/-- Witness for C1 at a concrete input: a full first run followed by an
unforced second run over the resulting store, which only hashes and heads. -/
theorem second_run_no_store_writes_witness :
    run { cfgW with force := false } envW ((run cfgW envW [] "f").store) "f" =
      ⟨none, (run cfgW envW [] "f").store,
        [Event.hashSource, Event.headObject (signedKey cfgW "f")]⟩ :=
  (second_run_no_store_writes cfgW envW envW [] "f" "H1"
    ⟨rfl, rfl, rfl, ⟨"v1", rfl⟩, ⟨"job1", rfl⟩, rfl, rfl, ⟨"S1", rfl⟩, rfl, rfl, rfl,
      ⟨"7", rfl⟩, rfl⟩
    rfl rfl rfl (by decide)
    (fun j hj => by
      simp [envW] at hj
      subst hj
      decide)).1

/-!
Dispatcher: embedding of `main`'s result-collection loop (src/main.go
lines 196-225) and of `lambdaFolders` (lines 228-244), plus the sharded
variant's partitioning branch (src/unnamed/part_001 lines 75-76 and
147-159).

Each launched pipeline sends exactly one `(folder, error)` result on a
channel whose buffer has room for every result, so all sends succeed; the
loop receives them in an arbitrary arrival order, counts them, and closes
the channel after the last expected one.  The arrival order is modelled as
an explicit list that is a permutation of one result per launched pipeline.
-/

/-- The `for result := range results` loop (lines 209-217): consume arrivals
one at a time, appending failed folders; after consuming one, close the
channel and stop when the count reaches `total`.  `none` models the loop
blocking forever: with no arrival left and the channel never closed, the
receive never returns (for the empty folder list Go reports
`all goroutines are asleep - deadlock`). -/
def collectLoop : List (String × Option Err) → Nat → Nat → List String → Option (List String)
  | [], _, _, _ => none
  | (f, e) :: rest, received, total, fails =>
    let fails2 := match e with
      | some _ => fails ++ [f]
      | none => fails
    if received + 1 = total then some fails2
    else collectLoop rest (received + 1) total fails2

/-- The dispatcher's collection phase over the launched pipelines'
results. -/
def collectResults (folders : List String) (arrivals : List (String × Option Err)) :
    Option (List String) :=
  collectLoop arrivals 0 folders.length []

/-- Lines 219-225: after collection, `main` panics with the sorted failure
list when any folder failed, and returns normally otherwise.  `none` means
the collection loop never terminated. -/
def mainOutcome (folders : List String) (arrivals : List (String × Option Err)) :
    Option (Except (List String) Unit) :=
  match collectResults folders arrivals with
  | none => none
  | some fails =>
    some (if fails.length ≠ 0 then Except.error (sortStrings fails) else Except.ok ())

/-- The failed folders among the arrivals, in arrival order. -/
def failedOf (arrivals : List (String × Option Err)) : List String :=
  (arrivals.filter (fun p => p.2.isSome)).map (fun p => p.1)

/-- Whether a path matches the glob `*/*.go`: exactly one separator, and a
base name ending in `.go` (each `*` matches a possibly-empty run of
non-separator characters). -/
def matchesTopGo (n : String) : Bool :=
  match n.data.splitOn '/' with
  | [_, f] => ['.', 'g', 'o'].isSuffixOf f
  | _ => false

/-- `filepath.Split` then `dir[:len(dir)-1]` for a path with one separator:
the leading directory component. -/
def dirOf (n : String) : String := String.mk (n.data.takeWhile (fun c => !(c == '/')))

/-- Embedding of `lambdaFolders` (src/main.go lines 228-244): glob `*/*.go`
over the working tree listing, take each match's directory, skip
`internal`, and sort.  One entry is appended per matched file.
`filepath.Glob` lists matches sorted; the final `sort.Sort` makes the
single `sortStrings` here canonical regardless of listing order. -/
def lambdaFolders (paths : List String) : List String :=
  sortStrings (((paths.filter matchesTopGo).map dirOf).filter (fun d => !(d == "internal")))

/-- Line 75: `flag.Int` returns a valid pointer, so the parsed `instance`
flag pointer is never nil. -/
def instanceFlagIsNil : Bool := false

/-- Line 76: likewise for the `num-instances` flag pointer. -/
def numInstancesFlagIsNil : Bool := false

/-- Line 147: the guard `instanceFlag != nil && numInstancesFlag != nil`. -/
def shardGuard : Bool := !instanceFlagIsNil && !numInstancesFlagIsNil

/-- The chunking loop of lines 151-157: successive slices
`folders[i : min (i+chunkSize) len]` with chunk size `cs1 + 1`, written so
the chunk size is positive by construction (the caller passes
`chunkSize - 1`). -/
def goChunks (cs1 : Nat) : List String → List (List String)
  | [] => []
  | x :: xs => (x :: xs).take (cs1 + 1) :: goChunks cs1 (xs.drop cs1)
termination_by l => l.length
decreasing_by
  simp only [List.length_cons, List.length_drop]
  omega

/-- The chunk-size expression of line 150 over ℕ, meaningful for
`1 ≤ n`: the ceiling of `len / n`. -/
def chunkSizeNat (len n : Nat) : Nat := (len + n - 1) / n

/-- The chunks the loop produces for a positive instance count. -/
def shardChunks (folders : List String) (n : Nat) : List (List String) :=
  goChunks (chunkSizeNat folders.length n - 1) folders

/-- Lines 150-158 as executed on the parsed values.  `none` models a panic
or hang: integer division by zero when `numInstances = 0`; a non-positive
chunk size over a nonempty list (negative slice bound, or `i += 0` looping
forever); and `chunks[instance]` out of range. -/
def shardSelect (folders : List String) (inst numInstances : Int) : Option (List String) :=
  if numInstances = 0 then none
  else
    let chunkSize : Int := Int.tdiv ((folders.length : Int) + numInstances - 1) numInstances
    if chunkSize ≤ 0 ∧ folders.length ≠ 0 then none
    else
      let chunks := goChunks (chunkSize.toNat - 1) folders
      if 0 ≤ inst ∧ inst.toNat < chunks.length then some (chunks.getD inst.toNat [])
      else none

/-- The partitioning step of the sharded `main`: the nil guard always
passes, so the branch runs on every invocation with the parsed values. -/
def applySharding (folders : List String) (inst numInstances : Int) : Option (List String) :=
  if shardGuard then shardSelect folders inst numInstances else some folders

theorem collectLoop_eq (total : Nat) :
    ∀ (arrivals : List (String × Option Err)) (received : Nat) (fails : List String),
      arrivals ≠ [] → arrivals.length + received = total →
      collectLoop arrivals received total fails = some (fails ++ failedOf arrivals) := by
  intro arrivals
  induction arrivals with
  | nil => intro received fails hne; exact absurd rfl hne
  | cons p rest ih =>
    intro received fails _ hlen
    obtain ⟨f, e⟩ := p
    by_cases hrest : rest = []
    · subst hrest
      simp only [List.length_cons, List.length_nil] at hlen
      unfold collectLoop
      rw [if_pos (by omega)]
      cases e <;> simp [failedOf]
    · have hne2 : received + 1 ≠ total := by
        have : 1 ≤ rest.length := List.length_pos.mpr hrest
        simp only [List.length_cons] at hlen
        omega
      unfold collectLoop
      rw [if_neg hne2]
      have hlen2 : rest.length + (received + 1) = total := by
        simp only [List.length_cons] at hlen
        omega
      cases e with
      | none =>
        rw [ih (received + 1) fails hrest hlen2]
        simp [failedOf]
      | some err =>
        rw [ih (received + 1) (fails ++ [f]) hrest hlen2]
        simp [failedOf]

theorem failedOf_perm {arrivals : List (String × Option Err)} {folders : List String}
    {errOf : String → Option Err}
    (hperm : arrivals.Perm (folders.map (fun f => (f, errOf f)))) :
    (failedOf arrivals).Perm (folders.filter (fun f => (errOf f).isSome)) := by
  unfold failedOf
  have h2 := (hperm.filter (fun p => p.2.isSome)).map (fun p : String × Option Err => p.1)
  refine h2.trans ?_
  rw [List.filter_map (fun f => (f, errOf f)) folders, List.map_map]
  have hc : ((fun p : String × Option Err => p.1) ∘ fun f => (f, errOf f)) = id := rfl
  rw [hc, List.map_id]
  exact List.Perm.refl _

/-- C5 (amended): for every NONEMPTY folder list given to the dispatcher,
with each launched pipeline delivering exactly one result in an arbitrary
arrival order, the result-collection loop terminates after collecting
exactly one result per launched pipeline, no folder is dropped, one
folder's failure does not prevent collecting the others' results, and the
process exits abnormally listing the failed folder names in sorted order
when at least one folder failed, normally when none failed.  (For the empty
folder list the loop never terminates; see the counterexample.) -/
theorem dispatcher_collects_all (folders : List String) (errOf : String → Option Err)
    (arrivals : List (String × Option Err))
    (hperm : arrivals.Perm (folders.map (fun f => (f, errOf f))))
    (hne : folders ≠ []) :
    collectResults folders arrivals = some (failedOf arrivals) ∧
    (failedOf arrivals).Perm (folders.filter (fun f => (errOf f).isSome)) ∧
    mainOutcome folders arrivals =
      some (if folders.filter (fun f => (errOf f).isSome) = [] then Except.ok ()
        else Except.error (sortStrings (folders.filter (fun f => (errOf f).isSome)))) := by
  have hlen : arrivals.length = folders.length := by
    rw [hperm.length_eq, List.length_map]
  have hne2 : arrivals ≠ [] := by
    intro h
    subst h
    simp only [List.length_nil] at hlen
    exact hne (List.length_eq_zero.mp hlen.symm)
  have hcoll : collectResults folders arrivals = some (failedOf arrivals) := by
    unfold collectResults
    rw [collectLoop_eq folders.length arrivals 0 [] hne2 (by omega)]
    simp
  have hfp := failedOf_perm hperm
  refine ⟨hcoll, hfp, ?_⟩
  unfold mainOutcome
  rw [hcoll]
  dsimp only
  by_cases hfail : folders.filter (fun f => (errOf f).isSome) = []
  · rw [if_pos hfail]
    have hnil : failedOf arrivals = [] := by
      rw [hfail] at hfp
      exact hfp.eq_nil
    rw [hnil]
    simp
  · rw [if_neg hfail]
    have hlen2 : (failedOf arrivals).length ≠ 0 := by
      rw [hfp.length_eq]
      intro h0
      exact hfail (List.length_eq_zero.mp h0)
    rw [if_pos hlen2, sortStrings_canon hfp]

/-- C5 counterexample: for the empty folder list — zero launched pipelines,
hence zero arrivals, the empty list being the only permutation of the
folder results — the collection loop never terminates: the channel receive
blocks forever because the close happens only inside the loop body, after a
result has arrived.  The process therefore does not exit normally (Go
aborts with a deadlock fault). -/
theorem dispatcher_empty_list_counterexample :
    ([] : List (String × Option Err)).Perm
      (([] : List String).map (fun f => (f, (none : Option Err)))) ∧
    collectResults [] [] = none ∧ mainOutcome [] [] = none :=
  ⟨List.Perm.refl _, rfl, rfl⟩

/-- Error assignment used by the C5 witness: folder `a` fails, `b`
succeeds. -/
def errOfW : String → Option Err := fun f => if f = "a" then some "x" else none

/-- Witness for C5 at a concrete input: two folders, results arriving in
reverse order, one failure. -/
theorem dispatcher_collects_all_witness :
    collectResults ["a", "b"] [("b", none), ("a", some "x")] =
      some (failedOf [("b", none), ("a", some "x")]) :=
  (dispatcher_collects_all ["a", "b"] errOfW [("b", none), ("a", some "x")]
    (by decide) (by decide)).1

theorem goChunks_flatten (cs1 : Nat) : ∀ l : List String, (goChunks cs1 l).flatten = l
  | [] => by rw [goChunks]; rfl
  | x :: xs => by
    rw [goChunks, List.flatten_cons, goChunks_flatten cs1 (xs.drop cs1),
      List.take_succ_cons, List.cons_append, List.take_append_drop]
termination_by l => l.length
decreasing_by
  simp only [List.length_cons, List.length_drop]
  omega

theorem goChunks_length_le (cs1 : Nat) : ∀ l : List String, ∀ c ∈ goChunks cs1 l,
    c.length ≤ cs1 + 1
  | [] => by rw [goChunks]; intro c hc; exact absurd hc (by simp)
  | x :: xs => by
    rw [goChunks]
    intro c hc
    rcases List.mem_cons.mp hc with rfl | hc2
    · rw [List.length_take]
      omega
    · exact goChunks_length_le cs1 (xs.drop cs1) c hc2
termination_by l => l.length
decreasing_by
  simp only [List.length_cons, List.length_drop]
  omega

theorem goChunks_ne_nil {cs1 : Nat} {l : List String} (h : l ≠ []) : goChunks cs1 l ≠ [] := by
  cases l with
  | nil => exact absurd rfl h
  | cons x xs => rw [goChunks]; simp

theorem goChunks_dropLast (cs1 : Nat) : ∀ l : List String,
    ∀ c ∈ (goChunks cs1 l).dropLast, c.length = cs1 + 1
  | [] => by rw [goChunks]; intro c hc; exact absurd hc (by simp)
  | x :: xs => by
    rw [goChunks]
    intro c hc
    by_cases hrest : xs.drop cs1 = []
    · rw [hrest] at hc
      rw [goChunks] at hc
      exact absurd hc (by simp)
    · rw [List.dropLast_cons_of_ne_nil (goChunks_ne_nil hrest)] at hc
      rcases List.mem_cons.mp hc with rfl | hc2
      · have hlt : cs1 < xs.length := by
          by_contra hle
          push_neg at hle
          exact hrest (List.drop_eq_nil_of_le hle)
        rw [List.length_take]
        simp only [List.length_cons]
        omega
      · exact goChunks_dropLast cs1 (xs.drop cs1) c hc2
termination_by l => l.length
decreasing_by
  simp only [List.length_cons, List.length_drop]
  omega

theorem chunkSizeNat_pos {len n : Nat} (hn : 1 ≤ n) (hl : 1 ≤ len) :
    1 ≤ chunkSizeNat len n := by
  unfold chunkSizeNat
  exact (Nat.one_le_div_iff (by omega)).mpr (by omega)

theorem shardSelect_pos (folders : List String) (inst : Int) {numInstances : Int}
    (hn : 1 ≤ numInstances) :
    shardSelect folders inst numInstances =
      if 0 ≤ inst ∧ inst.toNat < (shardChunks folders numInstances.toNat).length then
        some ((shardChunks folders numInstances.toNat).getD inst.toNat [])
      else none := by
  obtain ⟨k, rfl⟩ : ∃ n : Nat, numInstances = (n : Int) :=
    ⟨numInstances.toNat, (Int.toNat_of_nonneg (by omega)).symm⟩
  have hk : 1 ≤ k := by omega
  unfold shardSelect
  rw [if_neg (by omega : ¬ ((k : Int) = 0))]
  have hnum : ((folders.length : Int) + (k : Int) - 1) =
      ((folders.length + k - 1 : Nat) : Int) := by omega
  have hval : Int.tdiv ((folders.length : Int) + (k : Int) - 1) ((k : Nat) : Int) =
      ((chunkSizeNat folders.length k : Nat) : Int) := by
    rw [hnum]
    rfl
  dsimp only
  rw [hval]
  by_cases hf : folders.length = 0
  · have hfe : folders = [] := List.length_eq_zero.mp hf
    subst hfe
    rw [if_neg (by simp)]
    rfl
  · have hcs : 1 ≤ chunkSizeNat folders.length k := chunkSizeNat_pos hk (by omega)
    rw [if_neg (by
      intro h2
      have := h2.1
      omega)]
    rfl

/-- C8 (amended): when the instance options carry `1 ≤ numInstances` and an
instance index within the produced chunks, the dispatcher partitions the
eligible folder list into contiguous chunks of size
`ceil(len(folders)/numInstances)` in order (the last chunk possibly
shorter) and deploys exactly the chunk selected by the instance index.
The partitioning is NOT optional, however: the nil guard on the parsed flag
pointers always passes, so when the option pair is not supplied the branch
still runs with the defaults and panics on the division by zero instead of
deploying the full eligible set unchanged (see the counterexample). -/
theorem shard_partitioning (folders : List String) (inst numInstances : Int)
    (hn : 1 ≤ numInstances) (hi : 0 ≤ inst)
    (hlt : inst.toNat < (shardChunks folders numInstances.toNat).length) :
    applySharding folders inst numInstances =
      some ((shardChunks folders numInstances.toNat).getD inst.toNat []) ∧
    (shardChunks folders numInstances.toNat).flatten = folders ∧
    (∀ c ∈ shardChunks folders numInstances.toNat,
      c.length ≤ chunkSizeNat folders.length numInstances.toNat) ∧
    (∀ c ∈ (shardChunks folders numInstances.toNat).dropLast,
      c.length = chunkSizeNat folders.length numInstances.toNat) := by
  have hne : folders ≠ [] := by
    intro h
    subst h
    simp [shardChunks, goChunks] at hlt
  have hcs : 1 ≤ chunkSizeNat folders.length numInstances.toNat := by
    refine chunkSizeNat_pos (by omega) ?_
    have := List.length_pos.mpr hne
    omega
  refine ⟨?_, ?_, ?_, ?_⟩
  · have hg : applySharding folders inst numInstances =
        shardSelect folders inst numInstances := rfl
    rw [hg, shardSelect_pos folders inst hn, if_pos ⟨hi, hlt⟩]
  · exact goChunks_flatten _ folders
  · intro c hc
    have := goChunks_length_le _ folders c hc
    omega
  · intro c hc
    have := goChunks_dropLast _ folders c hc
    omega

/-- Witness for C8 at a concrete input: three folders, two instances; the
second instance deploys the second chunk. -/
theorem shard_partitioning_witness :
    applySharding ["a", "b", "c"] 1 2 = some ["c"] := by
  have hch : shardChunks ["a", "b", "c"] (2 : Int).toNat = [["a", "b"], ["c"]] := by
    simp [shardChunks, chunkSizeNat, goChunks]
  have hlt : (1 : Int).toNat < (shardChunks ["a", "b", "c"] (2 : Int).toNat).length := by
    rw [hch]
    decide
  have h := (shard_partitioning ["a", "b", "c"] 1 2 (by decide) (by decide) hlt).1
  rw [h, hch]
  decide

/-- C8 counterexample: with the option pair not supplied the parsed flags
keep their defaults 0 and 0, the nil guard still passes, and the chunk-size
expression divides by zero (`none` models the Go panic): the full
eligible-folder set `["a"]` is not deployed unchanged. -/
theorem shard_not_optional :
    applySharding ["a"] 0 0 = none ∧ applySharding ["a"] 0 0 ≠ some ["a"] :=
  ⟨rfl, by decide⟩

/-- C10: the sharding guard compares the two parsed-flag pointers to nil,
which is never true for parsed flags, so the partitioning branch executes
on every invocation; with `num-instances` at its default 0 the chunk-size
expression divides by zero and the process panics before deploying
anything, and with an instance index at or beyond the number of produced
chunks the chunk selection indexes out of range and panics. -/
theorem shard_guard_always_executes (folders : List String) (inst numInstances : Int) :
    shardGuard = true ∧
    applySharding folders inst numInstances = shardSelect folders inst numInstances ∧
    applySharding folders inst 0 = none ∧
    (1 ≤ numInstances →
      (shardChunks folders numInstances.toNat).length ≤ inst.toNat →
      applySharding folders inst numInstances = none) := by
  refine ⟨rfl, rfl, rfl, ?_⟩
  intro hn hge
  have hg : applySharding folders inst numInstances =
      shardSelect folders inst numInstances := rfl
  rw [hg, shardSelect_pos folders inst hn, if_neg]
  intro h2
  have := h2.2
  omega

/-- Witness for C10 at a concrete input: three folders in two chunks,
instance index 5 out of range. -/
theorem shard_guard_always_executes_witness :
    applySharding ["a", "b", "c"] 5 2 = none := by
  refine (shard_guard_always_executes ["a", "b", "c"] 5 2).2.2.2 (by decide) ?_
  have hch : shardChunks ["a", "b", "c"] (2 : Int).toNat = [["a", "b"], ["c"]] := by
    simp [shardChunks, chunkSizeNat, goChunks]
  rw [hch]
  decide

theorem string_append_left_inj {a f g : String} (h : a ++ f = a ++ g) : f = g := by
  have hd : a.data ++ f.data = a.data ++ g.data := by
    have h2 := congrArg String.data h
    rwa [String.data_append a f, String.data_append a g] at h2
  exact String.ext ((List.append_right_inj a.data).mp hd)

theorem string_append_mid_inj {a b f g : String} (h : a ++ f ++ b = a ++ g ++ b) : f = g := by
  have hd : (a.data ++ f.data) ++ b.data = (a.data ++ g.data) ++ b.data := by
    have h2 := congrArg String.data h
    rwa [String.data_append (a ++ f) b, String.data_append (a ++ g) b,
      String.data_append a f, String.data_append a g] at h2
  have h3 := (List.append_left_inj b.data).mp hd
  exact String.ext ((List.append_right_inj a.data).mp h3)

/-- C9 counterexample: a folder with two top-level `.go` files appears
twice in `lambdaFolders` — one entry per matched file — so the dispatch
loop would launch two pipelines for the folder name `a`, which would share
`/tmp/a` and all of `a`'s store keys. -/
theorem lambdaFolders_duplicates :
    lambdaFolders ["a/x.go", "a/y.go"] = ["a", "a"] ∧
      ¬ (lambdaFolders ["a/x.go", "a/y.go"]).Nodup := by
  constructor <;> decide

/-- C9 (amended): `lambdaFolders` contains one entry per matched `.go`
file, so the list is duplicate-free exactly when no folder contributes more
than one matched file; and for DISTINCT folder names the derived resources
never collide: the local executable paths and the unsigned and signed store
keys differ (the staging key is derived from the signing job id, not from
the folder). -/
theorem lambdaFolders_nodup_of_unique (paths : List String) (cfg : Config)
    (hnd : (((paths.filter matchesTopGo).map dirOf).filter
      (fun d => !(d == "internal"))).Nodup) :
    (lambdaFolders paths).Nodup ∧
    ∀ f g : String, f ≠ g →
      executablePath f ≠ executablePath g ∧
      unsignedKey cfg f ≠ unsignedKey cfg g ∧
      signedKey cfg f ≠ signedKey cfg g := by
  constructor
  · exact ((sortStrings_perm _).nodup_iff).mpr hnd
  · intro f g hfg
    refine ⟨?_, ?_, ?_⟩
    · intro h
      exact hfg (string_append_left_inj h)
    · intro h
      exact hfg (string_append_mid_inj h)
    · intro h
      exact hfg (string_append_mid_inj h)

/-- Witness for C9 at a concrete input: two folders with one source file
each give a duplicate-free folder list and distinct per-folder resources. -/
theorem lambdaFolders_nodup_of_unique_witness :
    (lambdaFolders ["a/x.go", "b/y.go"]).Nodup ∧
      executablePath "a" ≠ executablePath "b" :=
  ⟨(lambdaFolders_nodup_of_unique ["a/x.go", "b/y.go"] cfgW (by decide)).1,
    ((lambdaFolders_nodup_of_unique ["a/x.go", "b/y.go"] cfgW (by decide)).2 "a" "b"
      (by decide)).1⟩

end LambdaBuilder
